import Mathlib

/-!
Verification development for the shazi-shell repository.

The definitions below are a shallow embedding of the TypeScript sources:

* `src/vfs.ts`            — the in-memory virtual filesystem (`VirtualFileSystem`);
* `src/shell-parser.ts`   — the lexer/expander (`expandArithmetic`, `expandVariables`,
                            `matchGlob`, `expandGlobs`, `splitByPipes`, `splitByOperators`,
                            `tokenizeCommand`, `extractControlStructure`);
* `src/shell.ts`          — the evaluator (`Shell.execute` operator loop, `expandString`,
                            `captureOutput`, `executeSimpleCommand`, `executeWhile`,
                            `executeUntil`);
* `src/builtins.ts`       — the builtin table (`echo`, `pwd`, `true`, `false`, `exit`, …).

JavaScript strings are modelled as `List Char`, JS `Map`s as association lists with
JS-`Map` update semantics (`jsMapSet` replaces in place, later `set` wins), machine
numbers as `Nat`/`Int` (and exact fractions where JS float
arithmetic is exercised on exact values), thrown exceptions as `Except`, and `new Date()` timestamps as an explicit
`now : Nat` argument.
-/

namespace ShaziShell

/-- The JS whitespace class `\s` (and the set trimmed by
`String.prototype.trim`): ECMAScript WhiteSpace and LineTerminator, that is
tab, LF, VT, FF, CR, space, NBSP (U+00A0), U+1680, the Zs run U+2000-U+200A,
LS (U+2028), PS (U+2029), U+202F, U+205F, U+3000 and ZWNBSP (U+FEFF). -/
def jsSpaceB (c : Char) : Bool :=
  c == ' ' || c == '\t' || c == '\n' || c == '\r' || c == '\x0b' || c == '\x0c' ||
    c == ' ' || c.toNat == 0x1680 ||
    (0x2000 ≤ c.toNat && c.toNat ≤ 0x200A) ||
    c.toNat == 0x2028 || c.toNat == 0x2029 || c.toNat == 0x202F ||
    c.toNat == 0x205F || c.toNat == 0x3000 || c.toNat == 0xFEFF

/-- JS `String.prototype.trim`: drop leading and trailing whitespace. -/
def jsTrim (l : List Char) : List Char :=
  ((l.dropWhile jsSpaceB).reverse.dropWhile jsSpaceB).reverse

/-- JS `Map.prototype.get` (also association-list lookup). -/
def jsMapGet {α : Type} : List (String × α) → String → Option α
  | [], _ => none
  | (k, v) :: rest, key => if k = key then some v else jsMapGet rest key

/-- JS `Map.prototype.set`: update the entry in place if the key exists,
otherwise append a new entry (insertion order is preserved). -/
def jsMapSet {α : Type} : List (String × α) → String → α → List (String × α)
  | [], key, v => [(key, v)]
  | (k, v0) :: rest, key, v =>
      if k = key then (key, v) :: rest else (k, v0) :: jsMapSet rest key v

/-- JS `Map.prototype.delete` (keys are unique in a `Map`, so removing the
first occurrence is exact). -/
def jsMapDel {α : Type} : List (String × α) → String → List (String × α)
  | [], _ => []
  | (k, v0) :: rest, key =>
      if k = key then rest else (k, v0) :: jsMapDel rest key

/-- JS `Map.prototype.has`. -/
def jsMapHas {α : Type} (l : List (String × α)) (key : String) : Bool :=
  (jsMapGet l key).isSome

/-- `new Map(entries)`: play the entries left to right through `set`. -/
def jsMapOfEntries {α : Type} (l : List (String × α)) : List (String × α) :=
  l.foldl (fun m kv => jsMapSet m kv.1 kv.2) []

/-- UTF-32 code-point lexicographic order on strings, the default
`Array.prototype.sort` comparator for the ASCII names the shell handles. -/
def lexLe : List Char → List Char → Bool
  | [], _ => true
  | _ :: _, [] => false
  | a :: as, b :: bs =>
      if a.toNat < b.toNat then true
      else if b.toNat < a.toNat then false
      else lexLe as bs

def sortInsert (x : String) : List String → List String
  | [] => [x]
  | y :: ys => if lexLe x.toList y.toList then x :: y :: ys else y :: sortInsert x ys

/-- JS `Array.prototype.sort()` on strings (stable insertion sort). -/
def sortStrings : List String → List String
  | [] => []
  | x :: xs => sortInsert x (sortStrings xs)

/-! ## Virtual filesystem (`src/vfs.ts`)

`INode` is the tagged union of file and directory nodes; `content` is the byte
array, `children` the JS `Map` of child nodes, `mtime` the creation timestamp
and `mode` the POSIX mode. -/

inductive INode where
  | file (content : List Nat) (mtime : Nat) (mode : Nat)
  | dir (children : List (String × INode)) (mtime : Nat) (mode : Nat)

inductive NodeType where
  | file
  | dir
deriving DecidableEq

structure FileStat where
  type : NodeType
  size : Nat
  mtime : Nat
  mode : Nat
deriving DecidableEq

/-- The `VirtualFileSystem` state: the root node and the current working
directory string. -/
structure VFS where
  root : INode
  cwd : String

/-- `createFile` (vfs.ts:25-32): fresh node, mode `0o644`, mtime `new Date()`. -/
def createFile (content : List Nat) (now : Nat) : INode :=
  INode.file content now 0o644

/-- `createDirectory` (vfs.ts:16-23): fresh node, mode `0o755`. -/
def createDirectory (now : Nat) : INode :=
  INode.dir [] now 0o755

/-- JS `String.prototype.split(sep)` for a one-character separator, over the
underlying character list. -/
def splitChars (sep : Char) : List Char → List (List Char)
  | [] => [[]]
  | c :: rest =>
      let r := splitChars sep rest
      if c = sep then [] :: r
      else
        match r with
        | [] => [[c]]
        | h :: t => (c :: h) :: t

/-- `path.split('/')` as a list of strings. -/
def splitSlash (s : String) : List String :=
  (splitChars '/' s.toList).map (fun l => String.mk l)

/-- `path.split('/').filter(Boolean)`: the nonempty components of a path. -/
def pathParts (s : String) : List String :=
  (splitSlash s).filter (fun p => !(p == ""))

/-- `normalizePath` (vfs.ts:55-68): split on `/`, drop empty and `.` segments,
collapse `..` against the accumulated prefix, re-join. -/
def normalizePath (path : String) : String :=
  let parts := (splitSlash path).filter (fun p => !(p == "") && !(p == "."))
  let normalized := parts.foldl
    (fun acc part => if part = ".." then acc.dropLast else acc ++ [part]) []
  "/" ++ String.intercalate "/" normalized

/-- `path.startsWith('/')`. -/
def startsWithSlash (path : String) : Bool :=
  match path.toList with
  | '/' :: _ => true
  | _ => false

/-- `resolvePath` (vfs.ts:48-53). -/
def resolvePath (cwd path : String) : String :=
  if startsWithSlash path then normalizePath path
  else normalizePath (cwd ++ "/" ++ path)

/-- The walk inside `getNode` (vfs.ts:74-86): descend a component list from a
node, failing on a missing child or a file in the middle of the path. -/
def findNode : INode → List String → Option INode
  | n, [] => some n
  | INode.file _ _ _, _ :: _ => none
  | INode.dir ch _ _, p :: ps =>
      match jsMapGet ch p with
      | none => none
      | some c => findNode c ps

/-- `getNode` (vfs.ts:70-87). -/
def getNode (v : VFS) (path : String) : Option INode :=
  if resolvePath v.cwd path == "/" then some v.root
  else findNode v.root (pathParts (resolvePath v.cwd path))

/-- Result of `getParentAndName` (vfs.ts:89-104): it can throw
(`Cannot operate on root`), return `null` (parent missing or not a directory),
or return the parent directory (its children) together with the final name.
The parent's path components are carried along so that the caller's mutation
of the returned parent reference can be expressed as a path update. -/
inductive GPNResult where
  | thrown (msg : String)
  | missing
  | found (parentParts : List String) (name : String) (children : List (String × INode))

/-- `getParentAndName` (vfs.ts:89-104).  The source looks the parent up via
`getNode('/' + parts.join('/'))`; since `parts` are exactly the nonempty
components of the already-normalized resolved path, that join/split round
trip is collapsed here to a direct `findNode` on `parts.dropLast`. -/
def getParentAndName (v : VFS) (path : String) : GPNResult :=
  match (pathParts (resolvePath v.cwd path)).getLast? with
  | none => GPNResult.thrown "Cannot operate on root"
  | some name =>
      match findNode v.root (pathParts (resolvePath v.cwd path)).dropLast with
      | some (INode.dir ch _ _) =>
          GPNResult.found (pathParts (resolvePath v.cwd path)).dropLast name ch
      | _ => GPNResult.missing

/-- Apply `f` to the children of the directory at the given path, leaving the
tree unchanged when the path no longer denotes a directory.  This expresses
the source's mutation through a parent-node reference: when the referenced
node is still reachable at `parts` the tree is rebuilt along the path, and
when it is not (the reference points into a detached subtree) the mutation is
invisible in the tree, which is exactly the unchanged-tree case. -/
def updateDir : INode → List String → (List (String × INode) → List (String × INode)) → INode
  | INode.dir ch m md, [], f => INode.dir (f ch) m md
  | INode.dir ch m md, p :: ps, f =>
      match jsMapGet ch p with
      | some c => INode.dir (jsMapSet ch p (updateDir c ps f)) m md
      | none => INode.dir ch m md
  | n, _, _ => n

/-- `stat` (vfs.ts:112-122). -/
def stat (v : VFS) (path : String) : Except String FileStat :=
  match getNode v path with
  | none => Except.error ("ENOENT: " ++ path)
  | some (INode.file c m md) => Except.ok ⟨NodeType.file, c.length, m, md⟩
  | some (INode.dir _ m md) => Except.ok ⟨NodeType.dir, 0, m, md⟩

/-- `readFile` (vfs.ts:124-129). -/
def readFile (v : VFS) (path : String) : Except String (List Nat) :=
  match getNode v path with
  | none => Except.error ("ENOENT: " ++ path)
  | some (INode.dir _ _ _) => Except.error ("EISDIR: " ++ path)
  | some (INode.file c _ _) => Except.ok c

/-- `writeFile` (vfs.ts:131-141): resolve the parent, fail `ENOENT` when it is
missing, fail `EISDIR` when the target exists as a directory, otherwise install
a brand-new file node (`createFile content`) under the target name. -/
def writeFile (v : VFS) (path : String) (content : List Nat) (now : Nat) :
    Except String VFS :=
  match getParentAndName v path with
  | GPNResult.thrown msg => Except.error msg
  | GPNResult.missing => Except.error "ENOENT: parent directory not found"
  | GPNResult.found pp name ch =>
      match jsMapGet ch name with
      | some (INode.dir _ _ _) => Except.error ("EISDIR: " ++ path)
      | _ => Except.ok
          { v with root := updateDir v.root pp (fun c => jsMapSet c name (createFile content now)) }

/-- `readdir` (vfs.ts:193-198): sorted child names. -/
def readdir (v : VFS) (path : String) : Except String (List String) :=
  match getNode v path with
  | none => Except.error ("ENOENT: " ++ path)
  | some (INode.file _ _ _) => Except.error ("ENOTDIR: " ++ path)
  | some (INode.dir ch _ _) => Except.ok (sortStrings (ch.map Prod.fst))

/-- `rename` (vfs.ts:200-215).  The first component is the call's result (a
thrown error or success), the second is the state of the filesystem when the
call returns or throws; every `throw` in the source happens before any
mutation, so the error branches return `v` unchanged. -/
def rename (v : VFS) (oldPath newPath : String) : Except String Unit × VFS :=
  match getNode v oldPath with
  | none => (Except.error ("ENOENT: " ++ oldPath), v)
  | some node =>
      match getParentAndName v newPath with
      | GPNResult.thrown msg => (Except.error msg, v)
      | GPNResult.missing => (Except.error "ENOENT: destination parent not found", v)
      | GPNResult.found npp nname _ =>
          match getParentAndName v oldPath with
          | GPNResult.thrown msg => (Except.error msg, v)
          | GPNResult.missing =>
              -- `if (oldInfo)` is false: the source skips the detach and attaches directly
              (Except.ok (), { v with root := updateDir v.root npp (fun c => jsMapSet c nname node) })
          | GPNResult.found opp oname _ =>
              let detached := updateDir v.root opp (fun c => jsMapDel c oname)
              (Except.ok (), { v with root := updateDir detached npp (fun c => jsMapSet c nname node) })

/-! ### Association-list and tree lemmas -/

theorem jsMapGet_set_self {α : Type} (l : List (String × α)) (k : String) (v : α) :
    jsMapGet (jsMapSet l k v) k = some v := by
  induction l with
  | nil => simp [jsMapSet, jsMapGet]
  | cons hd tl ih =>
      obtain ⟨k0, v0⟩ := hd
      by_cases h : k0 = k
      · simp [jsMapSet, h, jsMapGet]
      · simp [jsMapSet, h, jsMapGet, ih]

theorem findNode_append_singleton (pp : List String) (root : INode) (n : String) :
    findNode root (pp ++ [n]) =
      match findNode root pp with
      | some (INode.dir ch _ _) => jsMapGet ch n
      | _ => none := by
  induction pp generalizing root with
  | nil =>
      cases root with
      | file c m md => simp [findNode]
      | dir ch m md =>
          simp only [List.nil_append, findNode]
          cases jsMapGet ch n with
          | none => simp [findNode]
          | some c => cases c <;> simp [findNode]
  | cons p ps ih =>
      cases root with
      | file c m md => simp [findNode]
      | dir ch m md =>
          simp only [List.cons_append, findNode]
          cases jsMapGet ch p with
          | none => simp
          | some c => simpa using ih c

theorem findNode_updateDir_self (pp : List String) (root : INode)
    (ch : List (String × INode)) (m md : Nat)
    (f : List (String × INode) → List (String × INode))
    (h : findNode root pp = some (INode.dir ch m md)) :
    findNode (updateDir root pp f) pp = some (INode.dir (f ch) m md) := by
  induction pp generalizing root with
  | nil =>
      cases root with
      | file c m0 md0 => simp [findNode] at h
      | dir ch0 m0 md0 =>
          simp [findNode] at h
          obtain ⟨h1, h2, h3⟩ := h
          subst h1; subst h2; subst h3
          simp [updateDir, findNode]
  | cons p ps ih =>
      cases root with
      | file c m0 md0 => simp [findNode] at h
      | dir ch0 m0 md0 =>
          simp only [findNode] at h
          cases hg : jsMapGet ch0 p with
          | none => rw [hg] at h; simp at h
          | some c =>
              rw [hg] at h
              simp only at h
              have ihc := ih c h
              simp [updateDir, hg, findNode, jsMapGet_set_self, ihc]

/-! ### C10: `writeFile` installs a brand-new node -/

/-- C10: `writeFile(p, b)` on an existing file `p` installs a brand-new file
node: the write succeeds, `readFile(p)` afterwards returns exactly `b`, and
`stat(p)` reports size `b.length`, the fresh mtime `now` and mode `0o644`,
regardless of the previous node's content, mtime and mode. -/
theorem writeFile_installs_fresh_node
    (v : VFS) (p : String) (b : List Nat) (now : Nat)
    (pp : List String) (name : String) (ch : List (String × INode))
    (c0 : List Nat) (m0 md0 : Nat)
    (hgpn : getParentAndName v p = GPNResult.found pp name ch)
    (hex : jsMapGet ch name = some (INode.file c0 m0 md0)) :
    ∃ v2, writeFile v p b now = Except.ok v2 ∧
      readFile v2 p = Except.ok b ∧
      stat v2 p = Except.ok ⟨NodeType.file, b.length, now, 0o644⟩ := by
  -- unpack the getParentAndName computation
  unfold getParentAndName at hgpn
  cases hlast : (pathParts (resolvePath v.cwd p)).getLast? with
  | none => rw [hlast] at hgpn; exact absurd hgpn (by simp)
  | some nm =>
  rw [hlast] at hgpn
  cases hfind : findNode v.root (pathParts (resolvePath v.cwd p)).dropLast with
  | none => rw [hfind] at hgpn; exact absurd hgpn (by simp)
  | some parentNode =>
  rw [hfind] at hgpn
  cases parentNode with
  | file c m md => exact absurd hgpn (by simp)
  | dir pch pm pmd =>
  simp only [GPNResult.found.injEq] at hgpn
  obtain ⟨hpp, hnm, hch⟩ := hgpn
  subst hpp; subst hnm; subst hch
  -- facts about the resolved path
  have hne : pathParts (resolvePath v.cwd p) ≠ [] := by
    intro hcontra
    rw [hcontra] at hlast
    exact absurd hlast (by simp)
  have hsplit : (pathParts (resolvePath v.cwd p)).dropLast ++ [nm] =
      pathParts (resolvePath v.cwd p) :=
    List.dropLast_append_getLast? nm (Option.mem_def.mpr hlast)
  have hresB : (resolvePath v.cwd p == "/") = false := by
    apply beq_eq_false_iff_ne.mpr
    intro hcontra
    apply hne
    rw [hcontra]
    rfl
  have hg : getParentAndName v p = GPNResult.found
      (pathParts (resolvePath v.cwd p)).dropLast nm pch := by
    unfold getParentAndName
    rw [hlast, hfind]
  -- the updated filesystem
  have hwalk : findNode
      (updateDir v.root (pathParts (resolvePath v.cwd p)).dropLast
        (fun c => jsMapSet c nm (INode.file b now 0o644)))
      (pathParts (resolvePath v.cwd p)) = some (INode.file b now 0o644) := by
    have base : findNode
        (updateDir v.root (pathParts (resolvePath v.cwd p)).dropLast
          (fun c => jsMapSet c nm (INode.file b now 0o644)))
        ((pathParts (resolvePath v.cwd p)).dropLast ++ [nm]) =
          some (INode.file b now 0o644) := by
      rw [findNode_append_singleton]
      rw [findNode_updateDir_self _ _ _ _ _ _ hfind]
      exact jsMapGet_set_self pch nm (INode.file b now 0o644)
    rwa [hsplit] at base
  refine ⟨⟨updateDir v.root ((pathParts (resolvePath v.cwd p)).dropLast)
      (fun c => jsMapSet c nm (createFile b now)), v.cwd⟩, ?_, ?_, ?_⟩
  · simp only [writeFile, hg, hex]
  · simp only [readFile, getNode, hresB, Bool.false_eq_true, if_false, hwalk, createFile]
  · simp only [stat, getNode, hresB, Bool.false_eq_true, if_false, hwalk, createFile]

/-- A tiny concrete filesystem: `/home` contains the file `f.txt`. -/
def demoVFS : VFS :=
  { root := INode.dir
      [("home", INode.dir [("f.txt", INode.file [1, 2, 3] 11 0o600)] 5 0o755)] 1 0o755,
    cwd := "/home" }

/-- Witness for C10 at a concrete input: overwriting `/home/f.txt` (mode
`0o600`, mtime 11) installs a fresh node with mode `0o644` and mtime 42. -/
theorem writeFile_installs_fresh_node_witness :
    getParentAndName demoVFS "f.txt" =
      GPNResult.found ["home"] "f.txt" [("f.txt", INode.file [1, 2, 3] 11 0o600)] ∧
    ∃ v2, writeFile demoVFS "f.txt" [9, 9] 42 = Except.ok v2 ∧
      readFile v2 "f.txt" = Except.ok [9, 9] ∧
      stat v2 "f.txt" = Except.ok ⟨NodeType.file, 2, 42, 0o644⟩ :=
  ⟨rfl, writeFile_installs_fresh_node demoVFS "f.txt" [9, 9] 42
    ["home"] "f.txt" [("f.txt", INode.file [1, 2, 3] 11 0o600)]
    [1, 2, 3] 11 0o600 rfl rfl⟩

/-! ### C3: `rename` and failure atomicity -/

/-- C3 (amended): `rename` validates the destination parent before detaching
the source, so whenever it fails (its result is an error, in particular the
`ENOENT` cases of a missing source or a missing destination parent) the
filesystem state is returned unchanged — no call can strand a detached node. -/
theorem rename_error_leaves_tree_unchanged
    (v : VFS) (oldPath newPath : String) (e : String)
    (h : (rename v oldPath newPath).1 = Except.error e) :
    (rename v oldPath newPath).2 = v := by
  unfold rename at h ⊢
  cases hold : getNode v oldPath with
  | none => simp [hold]
  | some node =>
      rw [hold] at h
      cases hnew : getParentAndName v newPath with
      | thrown msg => simp [hnew]
      | missing => simp [hnew]
      | found npp nname nch =>
          rw [hnew] at h
          cases holdp : getParentAndName v oldPath with
          | thrown msg => simp [holdp]
          | missing => rw [holdp] at h; simp at h
          | found opp oname och => rw [holdp] at h; simp at h

/-- Counterexample to C3 as stated: at the natural witness input — the
destination parent `/nodir` does not exist — `rename` fails with `ENOENT`
*and* the filesystem is unchanged, the source `/home/f.txt` still being
attached under its original parent; the source is never detached on this
failure, contrary to the claim that the tree is changed on error. -/
theorem rename_enoent_source_still_attached :
    (rename demoVFS "/home/f.txt" "/nodir/b").1 =
      Except.error "ENOENT: destination parent not found" ∧
    (rename demoVFS "/home/f.txt" "/nodir/b").2 = demoVFS ∧
    getNode demoVFS "/home/f.txt" = some (INode.file [1, 2, 3] 11 0o600) := by
  refine ⟨rfl, ?_, rfl⟩
  exact rename_error_leaves_tree_unchanged demoVFS "/home/f.txt" "/nodir/b"
    "ENOENT: destination parent not found" rfl

/-- Witness for the amended C3 theorem at a concrete input (missing source). -/
theorem rename_error_leaves_tree_unchanged_witness :
    (rename demoVFS "/gone" "/home/x").1 = Except.error "ENOENT: /gone" ∧
    (rename demoVFS "/gone" "/home/x").2 = demoVFS :=
  ⟨rfl, rename_error_leaves_tree_unchanged demoVFS "/gone" "/home/x"
    "ENOENT: /gone" rfl⟩

/-! ## Arithmetic expansion (`shell-parser.ts`, `expandArithmetic`, lines 850-879) -/

/-- JS `\w` (the word characters `[A-Za-z0-9_]`). -/
def isWordChar (c : Char) : Bool :=
  c.isAlpha || c.isDigit || c == '_'

/-- First character of the identifier pattern `[a-zA-Z_]`. -/
def isIdentStart (c : Char) : Bool :=
  c.isAlpha || c == '_'

/-- The identifier whitelist skipped by the variable substitution
(`['true', 'false', 'Math', 'pow', 'floor', 'ceil', 'abs']`). -/
def arithSkipWords : List String :=
  ["true", "false", "Math", "pow", "floor", "ceil", "abs"]

/-- The replacement for one identifier match: whitelist words pass through,
anything else becomes `getVar(name) || '0'` (an undefined variable yields
`''`, which is falsy, hence `'0'`). -/
def substToken (getVar : String → String) (w : List Char) : List Char :=
  if arithSkipWords.contains (String.mk w) then w
  else if getVar (String.mk w) = "" then ['0'] else (getVar (String.mk w)).toList

/-- `expr.replace(/\b([a-zA-Z_][a-zA-Z0-9_]*)\b/g, ...)`: every maximal run of
word characters that starts with a letter or underscore is an identifier
match (a run starting with a digit matches nowhere because `\b` fails inside
the run); other characters are copied.  Budgeted; every step consumes at
least one character, so the initial budget (the input length, see
`substArithVars`) suffices. -/
def substArithVarsF (getVar : String → String) : Nat → List Char → List Char
  | 0, l => l
  | _ + 1, [] => []
  | f + 1, c :: rest =>
      if isWordChar c then
        (if isIdentStart c then substToken getVar (List.takeWhile isWordChar (c :: rest))
         else List.takeWhile isWordChar (c :: rest))
          ++ substArithVarsF getVar f (List.dropWhile isWordChar rest)
      else c :: substArithVarsF getVar f rest

/-- The identifier substitution pass at its full budget. -/
def substArithVars (getVar : String → String) (l : List Char) : List Char :=
  substArithVarsF getVar l.length l

/-- The characters of `'Math.pow('`. -/
def mathPowOpen : List Char :=
  ['M', 'a', 't', 'h', '.', 'p', 'o', 'w', '(']

/-- `evalExpr.replace(/(\d+)\s*\*\*\s*(\d+)/g, 'Math.pow($1,$2)')` with an
explicit step budget; each recursive call consumes at least one input
character, so the initial budget `l.length` (see `powRewrite`) never runs
out.  A digit run followed (modulo whitespace) by `**` and another digit run
becomes `Math.pow(d1,d2)`; a digit run that fails the match is emitted
whole, because every later start position inside the run fails for the same
reason. -/
def powRewriteF : Nat → List Char → List Char
  | 0, l => l
  | _ + 1, [] => []
  | f + 1, c :: rest =>
      if c.isDigit then
        match List.dropWhile jsSpaceB (List.dropWhile Char.isDigit rest) with
        | '*' :: '*' :: r3 =>
            match List.takeWhile Char.isDigit (List.dropWhile jsSpaceB r3) with
            | [] => (c :: List.takeWhile Char.isDigit rest)
                ++ powRewriteF f (List.dropWhile Char.isDigit rest)
            | d2 => mathPowOpen ++ (c :: List.takeWhile Char.isDigit rest) ++ [','] ++ d2
                ++ [')']
                ++ powRewriteF f (List.dropWhile Char.isDigit (List.dropWhile jsSpaceB r3))
        | _ => (c :: List.takeWhile Char.isDigit rest)
            ++ powRewriteF f (List.dropWhile Char.isDigit rest)
      else c :: powRewriteF f rest

/-- The `**`-to-`Math.pow` rewrite at its full budget. -/
def powRewrite (l : List Char) : List Char :=
  powRewriteF l.length l

/-- The character class of the safety test
`/^[\d\s+\-*,/%().<>=!&|^~,Math.powflorceiabs]+$/` (shell-parser.ts:869):
digits, whitespace, the arithmetic/comparison/bitwise operator characters,
parentheses, dot, comma, and the letters of the whitelisted math names. -/
def allowedArithChar (c : Char) : Bool :=
  c.isDigit || jsSpaceB c ||
    (['+', '-', '*', '/', '%', '(', ')', '.', '<', '>', '=', '!', '&', '|', '^', '~', ',',
      'M', 'a', 't', 'h', 'p', 'o', 'w', 'f', 'l', 'r', 'c', 'e', 'i', 'b', 's'].contains c)

/-- The anchored one-or-more test: nonempty and all characters allowed. -/
def charsetOk (l : List Char) : Bool :=
  !l.isEmpty && l.all allowedArithChar

/-! The call `Function('"use strict"; return (' + evalExpr + ')')()` hands the
charset-filtered expression to the JavaScript engine.  `jsArithEval` models
that evaluation on the arithmetic fragment (integer literals, unary `+`/`-`,
`+ - * / %`, parentheses), computing exactly over `Rat`; inputs the model
does not cover (comparison and bitwise operators, division by zero, calls)
return `none`, which is the branch the source maps to `'0'` via its
`catch`.  No theorem below relies on the unmodelled cases. -/

/-- Exact fraction arithmetic that the kernel can evaluate: an unnormalized
`num/den` pair with `den ≠ 0` maintained by construction (divisions are
guarded by zero tests before they happen).  `Rat` is unsuitable here because
its normalization (`Nat.gcd`) does not reduce definitionally. -/
structure JQ where
  num : Int
  den : Int
deriving DecidableEq

def JQ.ofInt (n : Int) : JQ := ⟨n, 1⟩

def JQ.add (a b : JQ) : JQ := ⟨a.num * b.den + b.num * a.den, a.den * b.den⟩

def JQ.sub (a b : JQ) : JQ := ⟨a.num * b.den - b.num * a.den, a.den * b.den⟩

def JQ.mul (a b : JQ) : JQ := ⟨a.num * b.num, a.den * b.den⟩

def JQ.div (a b : JQ) : JQ := ⟨a.num * b.den, a.den * b.num⟩

def JQ.neg (a : JQ) : JQ := ⟨-a.num, a.den⟩

def JQ.isZero (a : JQ) : Bool := a.num == 0

/-- Numerator/denominator with the sign moved to the numerator. -/
def JQ.signNorm (a : JQ) : Int × Int :=
  if a.den < 0 then (-a.num, -a.den) else (a.num, a.den)

/-- `Math.floor` of the exact value. -/
def JQ.floor (a : JQ) : Int :=
  Int.fdiv a.signNorm.1 a.signNorm.2

/-- Truncation toward zero (the rounding JS `%` is defined with). -/
def JQ.trunc (a : JQ) : Int :=
  Int.tdiv a.signNorm.1 a.signNorm.2

/-- The JS `%` remainder: `a - b * trunc(a / b)`. -/
def JQ.rem (a b : JQ) : JQ :=
  a.sub (b.mul (JQ.ofInt ((a.div b).trunc)))

/-- Is the exact value a non-negative integer? -/
def JQ.isNonnegInt (a : JQ) : Bool :=
  a.num.emod a.den == 0 && decide (0 ≤ a.signNorm.1)

/-- The integer value, assuming `isNonnegInt`. -/
def JQ.toNat (a : JQ) : Nat :=
  (Int.fdiv a.signNorm.1 a.signNorm.2).toNat

def JQ.pow (a : JQ) (n : Nat) : JQ := ⟨a.num ^ n, a.den ^ n⟩

inductive ATok where
  | num (q : JQ)
  | plus
  | minus
  | star
  | slash
  | percent
  | lparen
  | rparen
  | powOpen
  | comma
deriving DecidableEq

/-- Digit run to a natural number. -/
def natOfDigits (l : List Char) : Nat :=
  l.foldl (fun a c => a * 10 + (c.toNat - 48)) 0

/-- A numeric literal: a digit run, optionally followed by `.` and a decimal
digit run. -/
def lexNumber (c : Char) (rest : List Char) : JQ × List Char :=
  match List.dropWhile Char.isDigit rest with
  | '.' :: r2 =>
      (⟨(natOfDigits (c :: List.takeWhile Char.isDigit rest) : Int) *
          (10 : Int) ^ (List.takeWhile Char.isDigit r2).length +
          (natOfDigits (List.takeWhile Char.isDigit r2) : Int),
        (10 : Int) ^ (List.takeWhile Char.isDigit r2).length⟩,
        List.dropWhile Char.isDigit r2)
  | r1 => (JQ.ofInt (natOfDigits (c :: List.takeWhile Char.isDigit rest) : Int), r1)

/-- Tokenizer for the arithmetic fragment (budgeted; `l.length + 1` always
suffices because every step consumes at least one character).  The literal
character sequence `Math.pow(` — the only call form the `**` rewrite
generates — lexes as a single opening token. -/
def arithLexF : Nat → List Char → Option (List ATok)
  | 0, _ => none
  | _ + 1, [] => some []
  | f + 1, c :: rest =>
      if jsSpaceB c then arithLexF f rest
      else if c.isDigit then
        match arithLexF f (lexNumber c rest).2 with
        | some ts => some (ATok.num (lexNumber c rest).1 :: ts)
        | none => none
      else if c == 'M' && (rest.take 8 == ['a', 't', 'h', '.', 'p', 'o', 'w', '(']) then
        (arithLexF f (rest.drop 8)).map (ATok.powOpen :: ·)
      else if c == '+' then (arithLexF f rest).map (ATok.plus :: ·)
      else if c == '-' then (arithLexF f rest).map (ATok.minus :: ·)
      else if c == '*' then (arithLexF f rest).map (ATok.star :: ·)
      else if c == '/' then (arithLexF f rest).map (ATok.slash :: ·)
      else if c == '%' then (arithLexF f rest).map (ATok.percent :: ·)
      else if c == '(' then (arithLexF f rest).map (ATok.lparen :: ·)
      else if c == ')' then (arithLexF f rest).map (ATok.rparen :: ·)
      else if c == ',' then (arithLexF f rest).map (ATok.comma :: ·)
      else none

/-- Parser mode: `expr := term (('+'|'-') term)*`,
`term := unary (('*'|'/'|'%') unary)*`,
`unary := ('+'|'-') unary | number | '(' expr ')' | 'Math.pow(' expr ',' expr ')'`;
the tail modes carry the value accumulated so far. -/
inductive PMode where
  | expr
  | exprTail (v : JQ)
  | term
  | termTail (v : JQ)
  | unary

/-- Recursive-descent evaluation of the arithmetic fragment, fuelled (every
recursive call strictly decreases the fuel; the caller passes enough). -/
def parseA : Nat → PMode → List ATok → Option (JQ × List ATok)
  | 0, _, _ => none
  | f + 1, PMode.expr, ts =>
      match parseA f PMode.term ts with
      | none => none
      | some (v, r) => parseA f (PMode.exprTail v) r
  | f + 1, PMode.exprTail v, ATok.plus :: r =>
      match parseA f PMode.term r with
      | none => none
      | some (w, r2) => parseA f (PMode.exprTail (v.add w)) r2
  | f + 1, PMode.exprTail v, ATok.minus :: r =>
      match parseA f PMode.term r with
      | none => none
      | some (w, r2) => parseA f (PMode.exprTail (v.sub w)) r2
  | _ + 1, PMode.exprTail v, r => some (v, r)
  | f + 1, PMode.term, ts =>
      match parseA f PMode.unary ts with
      | none => none
      | some (v, r) => parseA f (PMode.termTail v) r
  | f + 1, PMode.termTail v, ATok.star :: r =>
      match parseA f PMode.unary r with
      | none => none
      | some (w, r2) => parseA f (PMode.termTail (v.mul w)) r2
  | f + 1, PMode.termTail v, ATok.slash :: r =>
      match parseA f PMode.unary r with
      | none => none
      | some (w, r2) => if w.isZero then none else parseA f (PMode.termTail (v.div w)) r2
  | f + 1, PMode.termTail v, ATok.percent :: r =>
      match parseA f PMode.unary r with
      | none => none
      | some (w, r2) => if w.isZero then none else parseA f (PMode.termTail (v.rem w)) r2
  | _ + 1, PMode.termTail v, r => some (v, r)
  | f + 1, PMode.unary, ATok.minus :: r =>
      match parseA f PMode.unary r with
      | none => none
      | some (v, r2) => some (v.neg, r2)
  | f + 1, PMode.unary, ATok.plus :: r => parseA f PMode.unary r
  | _ + 1, PMode.unary, ATok.num q :: r => some (q, r)
  | f + 1, PMode.unary, ATok.lparen :: r =>
      match parseA f PMode.expr r with
      | none => none
      | some (v, r2) =>
          match r2 with
          | ATok.rparen :: r3 => some (v, r3)
          | _ => none
  | f + 1, PMode.unary, ATok.powOpen :: r =>
      match parseA f PMode.expr r with
      | none => none
      | some (v, r2) =>
          match r2 with
          | ATok.comma :: r3 =>
              match parseA f PMode.expr r3 with
              | none => none
              | some (w, r4) =>
                  match r4 with
                  | ATok.rparen :: r5 =>
                      if w.isNonnegInt then some (v.pow w.toNat, r5)
                      else none
                  | _ => none
          | _ => none
  | _ + 1, PMode.unary, _ => none

/-- JS `String(n)` for an integer value. -/
def intToChars (n : Int) : List Char :=
  (toString n).toList

/-- The modelled `Function(...)` evaluation followed by `Math.floor`:
tokenize, parse a full expression consuming all tokens, floor the value. -/
def jsArithEval (l : List Char) : Option Int :=
  match arithLexF (l.length + 1) l with
  | none => none
  | some ts =>
      match parseA (8 * ts.length + 16) PMode.expr ts with
      | some (v, []) => some v.floor
      | _ => none

/-- The replacement computed for one `$((...))` capture
(shell-parser.ts:853-877): substitute variables, rewrite `**`, reject any
expression with a character outside the allowed class as `'0'`, otherwise
evaluate and floor; an evaluation error (`catch`) also yields `'0'`. -/
def arithOccurrence (getVar : String → String) (expr : List Char) : List Char :=
  if charsetOk (powRewrite (substArithVars getVar expr)) then
    match jsArithEval (powRewrite (substArithVars getVar expr)) with
    | some n => intToChars n
    | none => ['0']
  else ['0']

/-- JS `.` in a regex without the `s` flag: anything but a line terminator. -/
def isJsDotChar (c : Char) : Bool :=
  !(c == '\n' || c == '\r' || c == ' ' || c == ' ')

/-- The lazy capture of `/\$\(\((.+?)\)\)/`: after `$((`, grow the capture one
(non-newline) character at a time and close at the earliest following `))`;
the capture must be nonempty.  Returns the capture and the text after the
closing `))`. -/
def grabArithGo : List Char → List Char → Option (List Char × List Char)
  | acc, ')' :: ')' :: rest =>
      if acc.isEmpty then grabArithGo [')'] (')' :: rest)
      else some (acc.reverse, rest)
  | acc, c :: rest => if isJsDotChar c then grabArithGo (c :: acc) rest else none
  | _, [] => none

/-- The global scan of `input.replace(/\$\(\((.+?)\)\)/g, ...)` — budgeted;
each step consumes at least one input character (a replaced occurrence
consumes at least five), so the initial budget `input.length` suffices.
Replacement text is not rescanned, matching `String.replace` semantics. -/
def expandArithmeticF (getVar : String → String) : Nat → List Char → List Char
  | 0, l => l
  | _ + 1, [] => []
  | f + 1, '$' :: '(' :: '(' :: rest =>
      match grabArithGo [] rest with
      | some (cap, r2) => arithOccurrence getVar cap ++ expandArithmeticF getVar f r2
      | none => '$' :: '(' :: '(' :: expandArithmeticF getVar f rest
  | f + 1, c :: rest => c :: expandArithmeticF getVar f rest

/-- `expandArithmetic` (shell-parser.ts:850-879). -/
def expandArithmetic (input : List Char) (getVar : String → String) : List Char :=
  expandArithmeticF getVar input.length input

/-! ## Variable expansion (`shell-parser.ts`, `expandVariables`, lines 884-957) -/

/-- The `getVar` closure built inside `expandVariables`
(shell-parser.ts:889-892): special variables take priority, then the
environment map, then `''`. -/
def getVarFull (env : List (String × String)) (sp : String → Option String)
    (name : String) : String :=
  match sp name with
  | some v => v
  | none => (jsMapGet env name).getD ""

/-- The single-character special variable names
(`'0123456789@#?$!-_*'.includes(...)`). -/
def specialCharSet : List Char :=
  ['0', '1', '2', '3', '4', '5', '6', '7', '8', '9', '@', '#', '?', '$', '!', '-', '_', '*']

/-- The inner default-value loop of the `${...}` parser: consume up to and
including the closing `}` (or the end of input). -/
def takeUntilClose : List Char → List Char × List Char
  | [] => ([], [])
  | '}' :: rest => ([], rest)
  | c :: rest =>
      match takeUntilClose rest with
      | (d, r) => (c :: d, r)

/-- The `${...}` body parser (shell-parser.ts:913-931): collect the variable
name until `}`, or switch to default mode at `:-` and collect the default
until `}`; the closing brace is skipped.  Returns
(name, hasDefault, defaultValue, rest-after-brace). -/
def braceScan : List Char → List Char × Bool × List Char × List Char
  | [] => ([], false, [], [])
  | '}' :: rest => ([], false, [], rest)
  | ':' :: '-' :: rest =>
      match takeUntilClose rest with
      | (d, r) => ([], true, d, r)
  | c :: rest =>
      match braceScan rest with
      | (vn, hd, d, r) => (c :: vn, hd, d, r)

/-- The main scanning loop of `expandVariables` (shell-parser.ts:897-954),
budgeted; every step consumes at least the leading character, so the initial
budget (the input length) suffices.  After `$`: a special one-character
variable, a `${VAR}` / `${VAR:-default}` form (`env` first, then specials;
an unset or empty value falls back to the default if one was given), or a
`$VAR` word (again `env` first); a lone `$` is copied. -/
def expandVarsLoopF (env : List (String × String)) (sp : String → Option String) :
    Nat → List Char → List Char
  | _, [] => []
  | 0, l => l
  | f + 1, '$' :: c2 :: rest2 =>
      if specialCharSet.contains c2 then
        ((sp (String.mk [c2])).getD "").toList ++ expandVarsLoopF env sp f rest2
      else if c2 == '{' then
        match braceScan rest2 with
        | (vn, hd, dv, r3) =>
            (match (match jsMapGet env (String.mk vn) with
                    | some v => some v
                    | none => sp (String.mk vn)) with
             | some v => if v = "" then (if hd then dv else []) else v.toList
             | none => if hd then dv else [])
              ++ expandVarsLoopF env sp f r3
      else
        match List.takeWhile isWordChar (c2 :: rest2) with
        | [] => '$' :: expandVarsLoopF env sp f (c2 :: rest2)
        | run =>
            (match jsMapGet env (String.mk run) with
             | some v => v.toList
             | none => ((sp (String.mk run)).getD "").toList)
              ++ expandVarsLoopF env sp f (List.dropWhile isWordChar (c2 :: rest2))
  | _ + 1, ['$'] => ['$']
  | f + 1, c :: rest => c :: expandVarsLoopF env sp f rest

/-- `expandVariables` (shell-parser.ts:884-957): arithmetic expansion first,
then the variable scanning loop. -/
def expandVariables (input : List Char) (env : List (String × String))
    (sp : String → Option String) : List Char :=
  expandVarsLoopF env sp (expandArithmetic input (getVarFull env sp)).length
    (expandArithmetic input (getVarFull env sp))

/-- The always-undefined special-variable record. -/
def spNone : String → Option String := fun _ => none


/-! ### Lemmas for C1 -/

theorem all_false_dropWhile (p q : Char → Bool) (l : List Char)
    (hq : ∀ c, q c = true → p c = true) (h : l.all p = false) :
    (l.dropWhile q).all p = false := by
  induction l with
  | nil => simp at h
  | cons c t ih =>
      rw [List.all_cons] at h
      by_cases hc : q c
      · rw [List.dropWhile_cons_of_pos hc]
        apply ih
        rcases Bool.and_eq_false_iff.mp h with h1 | h1
        · exact absurd (hq c hc) (by simp [h1])
        · exact h1
      · rw [List.dropWhile_cons_of_neg hc, List.all_cons]
        exact h

theorem digit_allowed (c : Char) (h : c.isDigit = true) : allowedArithChar c = true := by
  simp [allowedArithChar, h]

theorem space_allowed (c : Char) (h : jsSpaceB c = true) : allowedArithChar c = true := by
  simp [allowedArithChar, h]

/-- A disallowed character survives the `**` rewrite: the rewrite only
consumes digits, whitespace and stars (all allowed) and re-emits allowed
characters, so if the input fails the all-allowed test so does the output. -/
theorem powRewriteF_all_false :
    ∀ (f : Nat) (l : List Char), l.all allowedArithChar = false →
      (powRewriteF f l).all allowedArithChar = false := by
  intro f
  induction f with
  | zero => intro l h; simpa [powRewriteF] using h
  | succ f ih =>
      intro l h
      match l with
      | [] => simp at h
      | c :: rest =>
          rw [List.all_cons] at h
          by_cases hc : c.isDigit
          · have hca : allowedArithChar c = true := digit_allowed c hc
            have hrest : rest.all allowedArithChar = false := by
              rcases Bool.and_eq_false_iff.mp h with h1 | h1
              · exact absurd hca (by simp [h1])
              · exact h1
            have h1 : (List.dropWhile Char.isDigit rest).all allowedArithChar = false :=
              all_false_dropWhile _ _ _ digit_allowed hrest
            have h2 : (List.dropWhile jsSpaceB
                (List.dropWhile Char.isDigit rest)).all allowedArithChar = false :=
              all_false_dropWhile _ _ _ space_allowed h1
            have htd : ((c :: List.takeWhile Char.isDigit rest) ++
                powRewriteF f (List.dropWhile Char.isDigit rest)).all allowedArithChar
                  = false := by
              rw [List.all_append, ih _ h1]
              exact Bool.and_false _
            simp only [powRewriteF, hc, if_true]
            split
            · rename_i r3 heq
              -- the `'*' :: '*' :: r3` branch
              have h3 : r3.all allowedArithChar = false := by
                rw [heq, List.all_cons, List.all_cons] at h2
                rcases Bool.and_eq_false_iff.mp h2 with h4 | h4
                · exact absurd h4 (by decide)
                · rcases Bool.and_eq_false_iff.mp h4 with h5 | h5
                  · exact absurd h5 (by decide)
                  · exact h5
              have h4 : (List.dropWhile jsSpaceB r3).all allowedArithChar = false :=
                all_false_dropWhile _ _ _ space_allowed h3
              have h5 : (List.dropWhile Char.isDigit
                  (List.dropWhile jsSpaceB r3)).all allowedArithChar = false :=
                all_false_dropWhile _ _ _ digit_allowed h4
              split
              · exact htd
              · simp only [List.all_append, ih _ h5, Bool.and_false]
            · exact htd
          · simp only [powRewriteF]
            rw [if_neg hc]
            rcases Bool.and_eq_false_iff.mp h with h1 | h1
            · rw [List.all_cons, h1]
              exact Bool.false_and _
            · rw [List.all_cons, ih _ h1]
              exact Bool.and_false _

/-- The `$((...))` scanner is the identity on strings without `(`. -/
theorem expandArithmeticF_no_lparen (gv : String → String) :
    ∀ (f : Nat) (l : List Char), '(' ∉ l → expandArithmeticF gv f l = l := by
  intro f
  induction f with
  | zero => intro l _; rfl
  | succ f ih =>
      intro l hl
      match l with
      | [] => rfl
      | c :: rest =>
          unfold expandArithmeticF
          split
          · rename_i heq
            exact absurd heq (Nat.succ_ne_zero f)
          · rename_i heq
            exact absurd heq (by simp)
          · rename_i f2 rest2 hfeq hleq
            rw [hleq] at hl
            exact absurd (by simp) hl
          · rename_i f2 c2 rest2 hnomatch hfeq hleq
            injection hleq with hc2 hrest2
            injection hfeq with hf2
            rw [← hc2, ← hrest2, ← hf2,
               ih rest (fun hmem => hl (List.mem_cons_of_mem _ hmem))]

theorem substArithVarsF_nil (gv : String → String) (f : Nat) :
    substArithVarsF gv f [] = [] := by
  cases f <;> rfl

/-! ### C1: arithmetic expansion is guarded -/

/-- C1: in arithmetic expansion, the captured expression first has its
variables substituted (an identifier the environment and the special
variables do not define contributes `0`); if the substituted expression
contains any character outside the allowed arithmetic character class, the
occurrence expands to `"0"` (no evaluation happens); and a well-formed
occurrence such as `$((2+3*4))` expands to `"14"` — both through
`expandArithmetic` itself and through `expandVariables`, which applies it
first.  A malicious occurrence (here containing `;`) also collapses to
`"0"`. -/
theorem arith_expansion_guarded :
    (∀ (getVar : String → String) (expr : List Char),
        (substArithVars getVar expr).all allowedArithChar = false →
        arithOccurrence getVar expr = ['0'])
  ∧ (∀ (env : List (String × String)) (sp : String → Option String) (c0 : Char)
        (cs : List Char),
        isIdentStart c0 = true → ((c0 :: cs).all isWordChar = true) →
        arithSkipWords.contains (String.mk (c0 :: cs)) = false →
        sp (String.mk (c0 :: cs)) = none →
        jsMapGet env (String.mk (c0 :: cs)) = none →
        substArithVars (getVarFull env sp) (c0 :: cs) = ['0'])
  ∧ expandArithmetic ("$((2+3*4))".toList) (getVarFull [] spNone) = ['1', '4']
  ∧ expandVariables ("$((2+3*4))".toList) [] spNone = ['1', '4']
  ∧ expandArithmetic ("$((1;2))".toList) (getVarFull [] spNone) = ['0'] := by
  refine ⟨?_, ?_, by decide, by decide, by decide⟩
  · intro getVar expr h
    have hfalse : charsetOk (powRewrite (substArithVars getVar expr)) = false := by
      unfold charsetOk powRewrite
      simp [powRewriteF_all_false _ _ h]
    unfold arithOccurrence
    simp [hfalse]
  · intro env sp c0 cs h0 hall hskip hsp henv
    have hw : isWordChar c0 = true := by
      unfold isIdentStart at h0
      rcases (Bool.or_eq_true _ _).mp h0 with h1 | h1 <;> simp [isWordChar, h1]
    have hallmem : ∀ c ∈ c0 :: cs, isWordChar c = true := List.all_eq_true.mp hall
    have htake : List.takeWhile isWordChar (c0 :: cs) = c0 :: cs :=
      List.takeWhile_eq_self_iff.mpr hallmem
    have hdrop : List.dropWhile isWordChar cs = [] :=
      List.dropWhile_eq_nil_iff.mpr (fun c hc => hallmem c (List.mem_cons_of_mem _ hc))
    unfold substArithVars
    simp only [List.length_cons]
    unfold substArithVarsF
    rw [if_pos hw, if_pos h0, htake, hdrop]
    unfold substToken
    rw [if_neg (fun hcon => by rw [hskip] at hcon; exact absurd hcon (by decide)),
        if_pos (by simp [getVarFull, hsp, henv])]
    rw [substArithVarsF_nil]
    simp

/-- Witness for C1 at concrete inputs: `1;2` (after substitution) contains
the disallowed `;` and the occurrence collapses to `"0"`; the undefined
identifier `xy` substitutes to `"0"`. -/
theorem arith_expansion_guarded_witness :
    ((substArithVars (getVarFull [] spNone) ['1', ';', '2']).all allowedArithChar = false)
  ∧ arithOccurrence (getVarFull [] spNone) ['1', ';', '2'] = ['0']
  ∧ substArithVars (getVarFull [] spNone) ['x', 'y'] = ['0'] :=
  ⟨by decide, arith_expansion_guarded.1 (getVarFull [] spNone) ['1', ';', '2'] (by decide),
    arith_expansion_guarded.2.1 [] spNone 'x' ['y'] (by decide) (by decide) (by decide)
      rfl rfl⟩

/-! ### Lemmas for C5 -/

theorem takeUntilClose_cons_ne (c : Char) (l : List Char) (hc : ¬(c = '}')) :
    takeUntilClose (c :: l) =
      (c :: (takeUntilClose l).1, (takeUntilClose l).2) := by
  rcases htl : takeUntilClose l with ⟨d0, r0⟩
  conv_lhs => unfold takeUntilClose
  split
  · rename_i heq
    exact absurd heq (by simp)
  · rename_i heq
    injection heq with h1 h2
    exact absurd h1 hc
  · rename_i heq
    injection heq with h1 h2
    subst h1
    subst h2
    rw [htl]

theorem takeUntilClose_append (d : List Char) (h : '}' ∉ d) :
    takeUntilClose (d ++ ['}']) = (d, []) := by
  induction d with
  | nil => rfl
  | cons c t ih =>
      have hc : ¬(c = '}') := fun hcc => h (by simp [hcc])
      have ht : '}' ∉ t := fun hmem => h (List.mem_cons_of_mem _ hmem)
      rw [List.cons_append, takeUntilClose_cons_ne c _ hc, ih ht]

theorem braceScan_cons_ne (c : Char) (l : List Char) (hc1 : ¬(c = '}'))
    (hc2 : ¬(c = ':')) :
    braceScan (c :: l) =
      (c :: (braceScan l).1, (braceScan l).2.1, (braceScan l).2.2.1,
        (braceScan l).2.2.2) := by
  rcases hbs : braceScan l with ⟨vn, hd0, dv, r0⟩
  conv_lhs => unfold braceScan
  split
  · rename_i heq
    exact absurd heq (by simp)
  · rename_i heq
    injection heq with h1 h2
    exact absurd h1 hc1
  · rename_i heq
    injection heq with h1 h2
    exact absurd h1 hc2
  · rename_i heq
    injection heq with h1 h2
    subst h1
    subst h2
    rw [hbs]

theorem braceScan_append (name d : List Char)
    (hn : ∀ c ∈ name, ¬(c = ':') ∧ ¬(c = '}')) (hd : '}' ∉ d) :
    braceScan (name ++ ':' :: '-' :: (d ++ ['}'])) = (name, true, d, []) := by
  induction name with
  | nil =>
      have h1 : braceScan (':' :: '-' :: (d ++ ['}'])) =
          (match takeUntilClose (d ++ ['}']) with
           | (dd, r) => (([] : List Char), true, dd, r)) := rfl
      rw [List.nil_append, h1, takeUntilClose_append d hd]
  | cons c t ih =>
      have hcs := hn c (by simp)
      have ht : ∀ x ∈ t, ¬(x = ':') ∧ ¬(x = '}') :=
        fun x hx => hn x (List.mem_cons_of_mem _ hx)
      rw [List.cons_append, braceScan_cons_ne c _ hcs.2 hcs.1, ih ht]

/-! ### C5: `${NAME:-default}` semantics -/

/-- C5: for a plain variable name (no special-variable binding), the
`${NAME:-d}` form expands to `d` exactly when `NAME` is unset or set to the
empty string, and to `NAME`'s value otherwise. -/
theorem brace_default_expansion (env : List (String × String))
    (sp : String → Option String) (name d : List Char)
    (hn : ∀ c ∈ name, ¬(c = ':') ∧ ¬(c = '}') ∧ ¬(c = '('))
    (hd : ∀ c ∈ d, ¬(c = '}') ∧ ¬(c = '('))
    (hsp : sp (String.mk name) = none) :
    expandVariables ('$' :: '{' :: (name ++ ':' :: '-' :: (d ++ ['}']))) env sp =
      (match jsMapGet env (String.mk name) with
       | some v => if v = "" then d else v.toList
       | none => d) := by
  have hno : '(' ∉ ('$' :: '{' :: (name ++ ':' :: '-' :: (d ++ ['}']))) := by
    intro hmem
    rcases List.mem_cons.mp hmem with h | hmem2
    · exact absurd h (by decide)
    rcases List.mem_cons.mp hmem2 with h | hmem3
    · exact absurd h (by decide)
    rcases List.mem_append.mp hmem3 with h | hmem4
    · exact (hn _ h).2.2 rfl
    rcases List.mem_cons.mp hmem4 with h | hmem5
    · exact absurd h (by decide)
    rcases List.mem_cons.mp hmem5 with h | hmem6
    · exact absurd h (by decide)
    rcases List.mem_append.mp hmem6 with h | hmem7
    · exact (hd _ h).2 rfl
    · simp at hmem7
  unfold expandVariables
  rw [show expandArithmetic ('$' :: '{' :: (name ++ ':' :: '-' :: (d ++ ['}'])))
        (getVarFull env sp) = '$' :: '{' :: (name ++ ':' :: '-' :: (d ++ ['}'])) from
      expandArithmeticF_no_lparen _ _ _ hno]
  simp only [List.length_cons]
  simp only [expandVarsLoopF]
  rw [if_neg (by decide : ¬ (specialCharSet.contains '{' = true)),
      if_pos (by decide : ('{' == '{') = true)]
  rw [braceScan_append name d (fun c hc => ⟨(hn c hc).1, (hn c hc).2.1⟩)
        (fun hmem => (hd _ hmem).1 rfl)]
  cases hj : jsMapGet env (String.mk name) with
  | some v =>
      by_cases hv : v = "" <;> simp [hv, expandVarsLoopF]
  | none => simp [hsp, expandVarsLoopF]

/-- Witness for C5 at concrete inputs: with `FOO` unset `${FOO:-x}` gives
`"x"`, with `FOO=""` it also gives `"x"`, and with `FOO="v"` it gives
`"v"`. -/
theorem brace_default_expansion_witness :
    expandVariables ['$', '{', 'F', 'O', 'O', ':', '-', 'x', '}'] [] spNone = ['x']
  ∧ expandVariables ['$', '{', 'F', 'O', 'O', ':', '-', 'x', '}'] [("FOO", "")] spNone = ['x']
  ∧ expandVariables ['$', '{', 'F', 'O', 'O', ':', '-', 'x', '}'] [("FOO", "v")] spNone = ['v'] := by
  refine ⟨?_, ?_, ?_⟩
  · have h := brace_default_expansion [] spNone ['F', 'O', 'O'] ['x']
      (by decide) (by decide) rfl
    simpa using h
  · have h := brace_default_expansion [("FOO", "")] spNone ['F', 'O', 'O'] ['x']
      (by decide) (by decide) rfl
    simpa using h
  · have h := brace_default_expansion [("FOO", "v")] spNone ['F', 'O', 'O'] ['x']
      (by decide) (by decide) rfl
    simpa using h

/-! ## Glob matching and expansion (`shell-parser.ts`, lines 1409-1468) -/

/-- `matchGlob` (shell-parser.ts:1409-1437): the classic two-pointer wildcard
matcher with deferred `*` backtracking (`starIdx` stores the last star's
pattern index, `m` the text position the star is currently assumed to cover).
Budgeted: each loop step strictly decreases the lexicographic measure
(text.length − m, text.length − ti, pattern.length − pi) — `m ≤ ti` is an
invariant — so the initial budget in `matchGlob` is more than the
(text.length+1)·(text.length+1)·(pattern.length+1) possible states and never
runs out. -/
def matchGlobGo (p t : List Char) : Nat → Nat → Nat → Option Nat → Nat → Bool
  | 0, _, _, _, _ => false
  | fuel + 1, pi, ti, star, m =>
      if ti < t.length then
        if decide (pi < p.length) &&
            ((p.getD pi ' ' == '?') || (p.getD pi ' ' == t.getD ti ' ')) then
          matchGlobGo p t fuel (pi + 1) (ti + 1) star m
        else if decide (pi < p.length) && (p.getD pi ' ' == '*') then
          matchGlobGo p t fuel (pi + 1) ti (some pi) ti
        else
          match star with
          | some s => matchGlobGo p t fuel (s + 1) (m + 1) star (m + 1)
          | none => false
      else
        -- skip trailing stars, then require the pattern to be exhausted
        (p.drop pi).all (fun c => c == '*')

/-- The matcher at its full budget. -/
def matchGlob (pattern text : List Char) : Bool :=
  matchGlobGo pattern text
    ((text.length + 1) * (text.length + 1) * (pattern.length + 1) +
      pattern.length + text.length + 2) 0 0 none 0

/-- `arg.includes('*') || arg.includes('?')`. -/
def hasWildcard (arg : String) : Bool :=
  arg.toList.contains '*' || arg.toList.contains '?'

/-- `f.startsWith('.')`. -/
def startsWithDot (s : String) : Bool :=
  match s.toList with
  | '.' :: _ => true
  | _ => false

/-- Split at the last `/`: (text before it, text after it); meaningful only
when the list contains a `/`. -/
def lastSplitSlash (l : List Char) : List Char × List Char :=
  ((l.take (l.length - (l.reverse.takeWhile (fun c => !(c == '/'))).length - 1)),
    (l.reverse.takeWhile (fun c => !(c == '/'))).reverse)

/-- `arg.includes('/') ? (arg.substring(0, arg.lastIndexOf('/')) || '.') : '.'`. -/
def globDir (arg : String) : String :=
  if arg.toList.contains '/' then
    if (lastSplitSlash arg.toList).1 = [] then "."
    else String.mk (lastSplitSlash arg.toList).1
  else "."

/-- `arg.includes('/') ? arg.substring(arg.lastIndexOf('/') + 1) : arg`. -/
def globPat (arg : String) : List Char :=
  if arg.toList.contains '/' then (lastSplitSlash arg.toList).2 else arg.toList

/-- `files.filter(f => matchGlob(pattern, f) && !f.startsWith('.'))`
(shell-parser.ts:1452). -/
def globMatches (arg : String) (files : List String) : List String :=
  files.filter (fun f => matchGlob (globPat arg) f.toList && !(startsWithDot f))

/-- One loop iteration of `expandGlobs` (shell-parser.ts:1445-1464); `readdir`
returning `none` models the thrown exception caught at line 1459. -/
def expandGlobOne (readdir : String → Option (List String)) (arg : String) :
    List String :=
  if hasWildcard arg then
    match readdir (globDir arg) with
    | none => [arg]
    | some files =>
        if globMatches arg files = [] then [arg]
        else sortStrings ((globMatches arg files).map
          (fun f => if globDir arg = "." then f else globDir arg ++ "/" ++ f))
  else [arg]

/-- `expandGlobs` (shell-parser.ts:1442-1468): the result-pushing loop as a
concatenation of the per-argument expansions. -/
def expandGlobs (args : List String) (readdir : String → Option (List String)) :
    List String :=
  (args.map (expandGlobOne readdir)).join

/-! ### C8: glob expansion -/

/-- C8: glob expansion matches a wildcard argument against the directory
listing with the two-pointer matcher; names starting with `.` are never in
the match set; an argument whose pattern matches nothing passes through
literally; and `*.txt` against `a.txt, b.md, .hidden.txt` yields exactly
`a.txt`. -/
theorem glob_expansion :
    (∀ (rd : String → Option (List String)) (arg : String) (files : List String),
        hasWildcard arg = true →
        rd (globDir arg) = some files →
        globMatches arg files = [] →
        expandGlobOne rd arg = [arg])
  ∧ (∀ (arg : String) (files : List String) (f : String),
        startsWithDot f = true → f ∉ globMatches arg files)
  ∧ matchGlob ("*.txt".toList) ("a.txt".toList) = true
  ∧ matchGlob ("*.txt".toList) ("b.md".toList) = false
  ∧ matchGlob ("*.txt".toList) (".hidden.txt".toList) = true
  ∧ expandGlobs ["*.txt"]
      (fun d => if d = "." then some ["a.txt", "b.md", ".hidden.txt"] else none) =
      ["a.txt"] := by
  refine ⟨?_, ?_, by decide, by decide, by decide, by decide⟩
  · intro rd arg files hw hrd hm
    unfold expandGlobOne
    rw [if_pos hw, hrd]
    simp [hm]
  · intro arg files f hdot hmem
    have := List.of_mem_filter hmem
    rw [hdot] at this
    simp at this

/-- Witness for C8: `*.xyz` matches nothing in the listed directory and
passes through unexpanded; `.hidden.txt` starts with a dot and is excluded
from the match set of `*.txt`. -/
theorem glob_expansion_witness :
    expandGlobOne (fun d => if d = "." then some ["a.txt", "b.md", ".hidden.txt"] else none)
      "*.xyz" = ["*.xyz"]
  ∧ ".hidden.txt" ∉ globMatches "*.txt" ["a.txt", "b.md", ".hidden.txt"] :=
  ⟨glob_expansion.1 (fun d => if d = "." then some ["a.txt", "b.md", ".hidden.txt"] else none)
      "*.xyz" ["a.txt", "b.md", ".hidden.txt"] (by decide) (by decide) (by decide),
    glob_expansion.2.1 "*.txt" ["a.txt", "b.md", ".hidden.txt"] ".hidden.txt" (by decide)⟩

/-! ## Command-line scanning (`shell-parser.ts`, lines 962-1357) -/

/-- The word-boundary class `/[\s;|&()<>]/` of `findMatchingKeyword`. -/
def isBoundaryChar (c : Char) : Bool :=
  jsSpaceB c || c == ';' || c == '|' || c == '&' || c == '(' || c == ')' ||
    c == '<' || c == '>'

/-- `isWordBoundary(pos)` (shell-parser.ts:987-991): out-of-range positions
count as boundaries. -/
def bdAt (l : List Char) (j : Int) : Bool :=
  if j < 0 then true
  else if (l.length : Int) ≤ j then true
  else isBoundaryChar (l.getD j.toNat ' ')

/-- `input[i-1] !== '\\'` (true at the start of the string). -/
def prevNotBackslash (l : List Char) (i : Nat) : Bool :=
  !(decide (0 < i) && (l.getD (i - 1) ' ' == '\\'))

/-- `findMatchingKeyword` (shell-parser.ts:962-1014): scan tracking quote
state and a nesting depth that increments at the opening keyword and
decrements at the closing one (word boundaries on both sides, outside
quotes); returns the index of the matching close.  Budgeted; the index
advances every step so `l.length + 1` suffices. -/
def findMatchingKeywordF (l op cl : List Char) :
    Nat → Nat → Int → Bool → Bool → Option Nat
  | 0, _, _, _, _ => none
  | fuel + 1, i, depth, inS, inD =>
      if decide (l.length ≤ i) then none
      else
        let c := l.getD i ' '
        if !inD && c == '\'' && prevNotBackslash l i then
          findMatchingKeywordF l op cl fuel (i + 1) depth (!inS) inD
        else if !inS && c == '"' && prevNotBackslash l i then
          findMatchingKeywordF l op cl fuel (i + 1) depth inS (!inD)
        else if inS || inD then
          findMatchingKeywordF l op cl fuel (i + 1) depth inS inD
        else if bdAt l ((i : Int) - 1) && ((l.drop i).take op.length == op) &&
            bdAt l ((i : Int) + op.length) then
          findMatchingKeywordF l op cl fuel (i + op.length) (depth + 1) inS inD
        else if bdAt l ((i : Int) - 1) && ((l.drop i).take cl.length == cl) &&
            bdAt l ((i : Int) + cl.length) then
          if depth - 1 == 0 then some i
          else findMatchingKeywordF l op cl fuel (i + cl.length) (depth - 1) inS inD
        else findMatchingKeywordF l op cl fuel (i + 1) depth inS inD

def findMatchingKeyword (l op cl : List Char) : Option Nat :=
  findMatchingKeywordF l op cl (l.length + 1) 0 0 false false

/-- `/^kw\s/.test(trimmed)`. -/
def startsKW (l kw : List Char) : Bool :=
  (l.take kw.length == kw) &&
    (match l.get? kw.length with
     | some c => jsSpaceB c
     | none => false)

structure CtrlResult where
  type : String
  content : List Char
  remaining : List Char
deriving DecidableEq

/-- One keyword case of `extractControlStructure` (shell-parser.ts:1022-1080). -/
def tryKW (trimmed : List Char) (kw cl : String) : Option CtrlResult :=
  if startsKW trimmed kw.toList then
    match findMatchingKeyword trimmed kw.toList cl.toList with
    | some idx =>
        some ⟨kw, trimmed.take (idx + cl.toList.length),
          jsTrim (trimmed.drop (idx + cl.toList.length))⟩
    | none => none
  else none

/-- `extractControlStructure` (shell-parser.ts:1019-1083): try the five
keyword pairs in order; a form whose terminator is missing falls through. -/
def extractControlStructure (input : List Char) : Option CtrlResult :=
  (tryKW (jsTrim input) "for" "done").orElse fun _ =>
  (tryKW (jsTrim input) "while" "done").orElse fun _ =>
  (tryKW (jsTrim input) "until" "done").orElse fun _ =>
  (tryKW (jsTrim input) "if" "fi").orElse fun _ =>
  tryKW (jsTrim input) "case" "esac"

/-- `splitByPipes` (shell-parser.ts:1210-1257): split on unquoted `|` outside
parentheses; the lookahead `input[i+1] !== '|'` skips the first bar of `||`
(the second bar, whose successor is not a bar, does split — faithful to the
source).  Segments are trimmed; a trailing all-whitespace segment is
dropped. -/
def splitByPipesGo :
    Bool → Bool → Int → Option Char → List Char → List (List Char) → List Char →
      List (List Char)
  | _, _, _, _, current, acc, [] =>
      if (jsTrim current).isEmpty then acc else acc ++ [jsTrim current]
  | inS, inD, depth, prev, current, acc, c :: rest =>
      if !inD && c == '\'' && !(prev == some '\\') then
        splitByPipesGo (!inS) inD depth (some c) (current ++ [c]) acc rest
      else if !inS && c == '"' && !(prev == some '\\') then
        splitByPipesGo inS (!inD) depth (some c) (current ++ [c]) acc rest
      else if !inS && !inD then
        let depth2 := if c == '(' then depth + 1 else if c == ')' then depth - 1 else depth
        if c == '|' && !(rest.head? == some '|') && depth2 == 0 then
          splitByPipesGo inS inD depth2 (some c) [] (acc ++ [jsTrim current]) rest
        else
          splitByPipesGo inS inD depth2 (some c) (current ++ [c]) acc rest
      else splitByPipesGo inS inD depth (some c) (current ++ [c]) acc rest

def splitByPipes (input : List Char) : List (List Char) :=
  splitByPipesGo false false 0 none [] [] input

/-! ### Tokenization (`tokenizeCommand`, shell-parser.ts:1088-1205) -/

/-- The token-breaking class `/[\s<>|&;]/`. -/
def isBreakChar (c : Char) : Bool :=
  jsSpaceB c || c == '<' || c == '>' || c == '|' || c == '&' || c == ';'

/-- Double-quoted section of a redirect target (shell-parser.ts:1131-1140):
a backslash with a successor is skipped and the successor taken verbatim. -/
def scanDQTarget : List Char → List Char × List Char
  | [] => ([], [])
  | '"' :: rest => ([], rest)
  | '\\' :: c2 :: rest =>
      match scanDQTarget rest with
      | (w, r) => (c2 :: w, r)
  | '\\' :: [] => (['\\'], [])
  | c :: rest =>
      match scanDQTarget rest with
      | (w, r) => (c :: w, r)

/-- Single-quoted section (no escapes). -/
def scanSQ : List Char → List Char × List Char
  | [] => ([], [])
  | '\'' :: rest => ([], rest)
  | c :: rest =>
      match scanSQ rest with
      | (w, r) => (c :: w, r)

/-- Double-quoted section of a word (shell-parser.ts:1168-1177): a backslash
escapes only `"`, `\`, `` ` `` and `$`; otherwise the backslash itself is
kept and the next character is processed normally. -/
def scanDQWord : List Char → List Char × List Char
  | [] => ([], [])
  | '"' :: rest => ([], rest)
  | '\\' :: c2 :: rest =>
      if c2 == '"' || c2 == '\\' || c2 == '$' || c2 == '`' then
        match scanDQWord rest with
        | (w, r) => (c2 :: w, r)
      else
        match scanDQWord (c2 :: rest) with
        | (w, r) => ('\\' :: w, r)
  | '\\' :: [] => (['\\'], [])
  | c :: rest =>
      match scanDQWord rest with
      | (w, r) => (c :: w, r)

/-- The redirect-target reader (shell-parser.ts:1128-1152), budgeted (each
step consumes at least one character). -/
def targetScanF : Nat → List Char → List Char × List Char
  | 0, l => ([], l)
  | _ + 1, [] => ([], [])
  | f + 1, c :: rest =>
      if isBreakChar c then ([], c :: rest)
      else if c == '"' then
        match scanDQTarget rest with
        | (q, r) =>
            match targetScanF f r with
            | (w, r2) => (q ++ w, r2)
      else if c == '\'' then
        match scanSQ rest with
        | (q, r) =>
            match targetScanF f r with
            | (w, r2) => (q ++ w, r2)
      else
        match targetScanF f rest with
        | (w, r2) => (c :: w, r2)

/-- The word reader (shell-parser.ts:1160-1193), budgeted. -/
def wordScanF : Nat → List Char → List Char × List Char
  | 0, l => ([], l)
  | _ + 1, [] => ([], [])
  | f + 1, c :: rest =>
      if isBreakChar c then ([], c :: rest)
      else if c == '2' && rest.head? == some '>' then ([], c :: rest)
      else if c == '"' then
        match scanDQWord rest with
        | (q, r) =>
            match wordScanF f r with
            | (w, r2) => (q ++ w, r2)
      else if c == '\'' then
        match scanSQ rest with
        | (q, r) =>
            match wordScanF f r with
            | (w, r2) => (q ++ w, r2)
      else if c == '\\' then
        match rest with
        | c2 :: rest2 =>
            match wordScanF f rest2 with
            | (w, r2) => (c2 :: w, r2)
        | [] => (['\\'], [])
      else
        match wordScanF f rest with
        | (w, r2) => (c :: w, r2)

structure Redirect where
  type : String
  target : String
deriving DecidableEq

/-- The redirect-operator recognition order (shell-parser.ts:1101-1122). -/
def redirPrefix (l : List Char) : Option (String × List Char) :=
  if l.take 4 == ['2', '>', '&', '1'] then some ("2>&1", l.drop 4)
  else if l.take 3 == ['2', '>', '>'] then some ("2>>", l.drop 3)
  else if l.take 2 == ['2', '>'] then some ("2>", l.drop 2)
  else if l.take 2 == ['&', '>'] then some ("&>", l.drop 2)
  else if l.take 2 == ['>', '>'] then some (">>", l.drop 2)
  else
    match l with
    | '>' :: r => some (">", r)
    | '<' :: r => some ("<", r)
    | _ => none

/-- The token loop of `tokenizeCommand` (shell-parser.ts:1093-1198),
budgeted.  A bare `|`, `&` or `;` makes the source loop forever (nothing is
consumed); with the budget exhausted the model returns the tokens collected
so far — no theorem exercises that (unreachable-through-the-shell) case. -/
def tokenizeGoF : Nat → List Char → List (List Char) → List Redirect →
    List (List Char) × List Redirect
  | 0, _, toks, reds => (toks, reds)
  | f + 1, l, toks, reds =>
      match l.dropWhile (fun c => c == ' ' || c == '\t') with
      | [] => (toks, reds)
      | l1 =>
        match redirPrefix l1 with
        | some (ty, r1) =>
            match targetScanF (r1.dropWhile (fun c => c == ' ')).length
                (r1.dropWhile (fun c => c == ' ')) with
            | (tgt, r3) =>
                if tgt.isEmpty then tokenizeGoF f r3 toks reds
                else tokenizeGoF f r3 toks (reds ++ [⟨ty, String.mk tgt⟩])
        | none =>
            match wordScanF l1.length l1 with
            | (w, r3) =>
                if w.isEmpty then tokenizeGoF f r3 toks reds
                else tokenizeGoF f r3 (toks ++ [w]) reds

structure TokCmd where
  cmd : String
  args : List String
  redirects : List Redirect
deriving DecidableEq

/-- `tokenizeCommand` (shell-parser.ts:1088-1205): `{cmd, args, redirects}`
with `cmd = tokens[0] || ''`. -/
def tokenizeCommand (input : List Char) : TokCmd :=
  match tokenizeGoF (input.length + 1) input [] [] with
  | (toks, reds) => ⟨String.mk (toks.headD []), (toks.drop 1).map String.mk, reds⟩

/-! ### Operator splitting (`splitByOperators`, shell-parser.ts:1262-1357) -/

inductive Oper where
  | andOp
  | orOp
  | semi
deriving DecidableEq

def operLen : Oper → Nat
  | Oper.semi => 1
  | _ => 2

structure OpSeg where
  command : List Char
  operator : Option Oper
deriving DecidableEq

/-- The operator scan (shell-parser.ts:1290-1340): find the first unquoted
`&&`, `||` or `;` at paren depth zero.  Budgeted (the index advances each
step). -/
def findNextOpF (l : List Char) : Nat → Nat → Bool → Bool → Int → Option (Nat × Oper)
  | 0, _, _, _, _ => none
  | fuel + 1, i, inS, inD, depth =>
      if decide (l.length ≤ i) then none
      else
        let c := l.getD i ' '
        if !inD && c == '\'' && prevNotBackslash l i then
          findNextOpF l fuel (i + 1) (!inS) inD depth
        else if !inS && c == '"' && prevNotBackslash l i then
          findNextOpF l fuel (i + 1) inS (!inD) depth
        else if !inS && !inD then
          let d2 := if c == '(' then depth + 1 else if c == ')' then depth - 1 else depth
          if d2 == 0 then
            if (l.drop i).take 2 == ['&', '&'] then some (i, Oper.andOp)
            else if (l.drop i).take 2 == ['|', '|'] then some (i, Oper.orOp)
            else if c == ';' then some (i, Oper.semi)
            else findNextOpF l fuel (i + 1) inS inD d2
          else findNextOpF l fuel (i + 1) inS inD d2
        else findNextOpF l fuel (i + 1) inS inD depth

/-- The outer loop of `splitByOperators` (shell-parser.ts:1262-1357),
budgeted (each iteration consumes at least one character of `remaining`). -/
def splitByOperatorsF : Nat → List Char → List OpSeg → List OpSeg
  | 0, _, acc => acc
  | f + 1, remaining, acc =>
      if remaining.isEmpty then acc
      else
        match extractControlStructure remaining with
        | some ctrl =>
            if ctrl.remaining.take 2 == ['&', '&'] then
              splitByOperatorsF f (jsTrim (ctrl.remaining.drop 2))
                (acc ++ [⟨ctrl.content, some Oper.andOp⟩])
            else if ctrl.remaining.take 2 == ['|', '|'] then
              splitByOperatorsF f (jsTrim (ctrl.remaining.drop 2))
                (acc ++ [⟨ctrl.content, some Oper.orOp⟩])
            else if ctrl.remaining.take 1 == [';'] then
              splitByOperatorsF f (jsTrim (ctrl.remaining.drop 1))
                (acc ++ [⟨ctrl.content, some Oper.semi⟩])
            else
              splitByOperatorsF f ctrl.remaining (acc ++ [⟨ctrl.content, none⟩])
        | none =>
            match findNextOpF remaining (remaining.length + 1) 0 false false 0 with
            | some (idx, op) =>
                if (jsTrim (remaining.take idx)).isEmpty then
                  splitByOperatorsF f (jsTrim (remaining.drop (idx + operLen op))) acc
                else
                  splitByOperatorsF f (jsTrim (remaining.drop (idx + operLen op)))
                    (acc ++ [⟨jsTrim (remaining.take idx), some op⟩])
            | none => acc ++ [⟨remaining, none⟩]

def splitByOperators (input : List Char) : List OpSeg :=
  splitByOperatorsF (input.length + 2) (jsTrim input) []

/-! ## Brace expansion (`expandBraces`, shell-parser.ts:810-845) -/

/-- Try to match `/\{(-?\d+)\.\.(-?\d+)\}/` at the head of the list; on
success return the two bounds and the rest after the closing `}`. -/
def parseRangeAt : List Char → Option (Int × Int × List Char)
  | '{' :: r1 =>
      let (neg1, r2) := match r1 with
        | '-' :: t => (true, t)
        | _ => (false, r1)
      let d1 := r2.takeWhile Char.isDigit
      if d1.isEmpty then none
      else
        match r2.drop d1.length with
        | '.' :: '.' :: r3 =>
            let (neg2, r4) := match r3 with
              | '-' :: t => (true, t)
              | _ => (false, r3)
            let d2 := r4.takeWhile Char.isDigit
            if d2.isEmpty then none
            else
              match r4.drop d2.length with
              | '}' :: r5 =>
                  some (if neg1 then -(natOfDigits d1 : Int) else (natOfDigits d1 : Int),
                    if neg2 then -(natOfDigits d2 : Int) else (natOfDigits d2 : Int), r5)
              | _ => none
        | _ => none
  | _ => none

/-- Leftmost match of the numeric-range pattern: (prefix, start, end, rest). -/
def findRangeGo : List Char → Option (List Char × Int × Int × List Char)
  | [] => none
  | c :: rest =>
      match parseRangeAt (c :: rest) with
      | some (a, b, r5) => some ([], a, b, r5)
      | none =>
          match findRangeGo rest with
          | some (pre, a, b, r5) => some (c :: pre, a, b, r5)
          | none => none

/-- `a, a+1, …` of length `n`. -/
def intRangeAsc (a : Int) : Nat → List Int
  | 0 => []
  | n + 1 => a :: intRangeAsc (a + 1) n

/-- The `expansion.join(' ')` built at shell-parser.ts:819-830 (ascending when
`start <= end`, else descending). -/
def rangeExpansion (a b : Int) : List Char :=
  (String.intercalate " "
    ((if a ≤ b then intRangeAsc a ((b - a).toNat + 1)
      else (intRangeAsc b ((a - b).toNat + 1)).reverse).map toString)).toList

/-- The `{start..end}` while-loop (shell-parser.ts:813-834): replace the
leftmost match and rescan.  Each replacement removes one `{` and introduces
none, so `l.length + 1` rounds of budget suffice. -/
def expandBracesRangeF : Nat → List Char → List Char
  | 0, l => l
  | f + 1, l =>
      match findRangeGo l with
      | none => l
      | some (pre, a, b, rest) => expandBracesRangeF f (pre ++ rangeExpansion a b ++ rest)

/-- Try to match `/\{([^{}]+,[^{}]+)\}/` at the head: a brace-free body
containing a comma, in braces; returns (body, rest). -/
def parseListAt : List Char → Option (List Char × List Char)
  | '{' :: r1 =>
      let t := r1.takeWhile (fun c => !(c == '{') && !(c == '}'))
      if t.isEmpty then none
      else
        match r1.drop t.length with
        | '}' :: r2 => if t.contains ',' then some (t, r2) else none
        | _ => none
  | _ => none

/-- Leftmost match of the comma-list pattern: (prefix, body, rest). -/
def findListGo : List Char → Option (List Char × List Char × List Char)
  | [] => none
  | c :: rest =>
      match parseListAt (c :: rest) with
      | some (t, r2) => some ([], t, r2)
      | none =>
          match findListGo rest with
          | some (pre, t, r2) => some (c :: pre, t, r2)
          | none => none

/-- `match[1].split(',').map(s => s.trim()).join(' ')`. -/
def listExpansion (t : List Char) : List Char :=
  (String.intercalate " " ((splitChars ',' t).map (fun s => String.mk (jsTrim s)))).toList

/-- The `{a,b,c}` while-loop (shell-parser.ts:837-842), budgeted like the
range loop. -/
def expandBracesListF : Nat → List Char → List Char
  | 0, l => l
  | f + 1, l =>
      match findListGo l with
      | none => l
      | some (pre, t, r2) => expandBracesListF f (pre ++ listExpansion t ++ r2)

/-- `expandBraces` (shell-parser.ts:810-845): numeric ranges first, then
comma lists. -/
def expandBraces (l : List Char) : List Char :=
  expandBracesListF (l.length + 1) (expandBracesRangeF (l.length + 1) l)

/-! ## Input preprocessing in `Shell.execute` (shell.ts:240-260) -/

/-- JS `input.split(/\s+/)` (whitespace runs are single separators; a
leading or trailing run contributes an empty field). -/
def splitWSGo : List Char → List (List Char)
  | [] => [[]]
  | c :: rest =>
      let r := splitWSGo rest
      if jsSpaceB c then
        match rest with
        | c2 :: _ => if jsSpaceB c2 then r else [] :: r
        | [] => [] :: r
      else
        match r with
        | [] => [[c]]
        | h :: t => (c :: h) :: t

/-- `expandAliases` (shell.ts:297-304): replace the first whitespace-split
word when it names an alias, rejoining with single spaces. -/
def expandAliases (aliases : List (String × String)) (input : List Char) : List Char :=
  match splitWSGo input with
  | [] => input
  | p0 :: rest =>
      match jsMapGet aliases (String.mk p0) with
      | some v => (String.intercalate " " (v :: rest.map String.mk)).toList
      | none => input

/-- The `/^([a-zA-Z_][a-zA-Z0-9_]*)=([^;]*?)$/` simple-assignment match
(shell.ts:248): identifier, `=`, then a semicolon-free value. -/
def simpleAssignMatch : List Char → Option (String × List Char)
  | [] => none
  | c :: rest =>
      if isIdentStart c then
        let name := (c :: rest).takeWhile isWordChar
        match (c :: rest).drop name.length with
        | '=' :: value =>
            if value.contains ';' then none else some (String.mk name, value)
        | _ => none
      else none

/-- The `/^([a-zA-Z_][a-zA-Z0-9_]*)\s*\(\s*\)\s*\{(.+)\}$/s` function
definition match (shell.ts:255): with the greedy dot, the body runs to the
last character, which must be `}`, and is non-empty. -/
def funcDefMatch : List Char → Option (String × List Char)
  | [] => none
  | c :: rest =>
      if isIdentStart c then
        let name := (c :: rest).takeWhile isWordChar
        match ((c :: rest).drop name.length).dropWhile jsSpaceB with
        | '(' :: r1 =>
            match r1.dropWhile jsSpaceB with
            | ')' :: r2 =>
                match r2.dropWhile jsSpaceB with
                | '{' :: r3 =>
                    match r3.reverse with
                    | '}' :: rb =>
                        if rb.isEmpty then none
                        else some (String.mk name, rb.reverse)
                    | _ => none
                | _ => none
            | _ => none
        | _ => none
      else none

/-! ## Shell state, thrown values, builtins (`shell.ts`, `builtins.ts`) -/

/-- A thrown JS value as the shell sees it: the distinguished exit signal
`{type: 'exit', code}` (`code` is `parseInt`'s result, `none` = `NaN`), or an
ordinary `Error` with its message. -/
inductive JsThrown where
  | exitSig (code : Option Int)
  | jsError (msg : String)
deriving DecidableEq

/-- JS `a || b` on strings (empty string is falsy). -/
def jsOrS (s d : String) : String := if s = "" then d else s

/-- JS `parseInt(s, 10)`: skip leading whitespace, optional sign, the
leading digit run; `none` models `NaN`. -/
def jsParseInt10 (s : String) : Option Int :=
  match s.toList.dropWhile jsSpaceB with
  | '-' :: rest =>
      let d := rest.takeWhile Char.isDigit
      if d.isEmpty then none else some (-(natOfDigits d : Int))
  | '+' :: rest =>
      let d := rest.takeWhile Char.isDigit
      if d.isEmpty then none else some (natOfDigits d : Int)
  | rest =>
      let d := rest.takeWhile Char.isDigit
      if d.isEmpty then none else some (natOfDigits d : Int)

/-- The mutable fields of `Shell` that the modelled slice reads or writes,
plus `out`: the ordered `(text, isError)` pairs handed to `onOutput`.
`pid` stands for the `String(Date.now())` read by `$$`.  The `functions`
map is not modelled (assumed empty; no theorem defines a shell function). -/
structure ShellSt where
  vfs : VFS
  env : List (String × String)
  localVars : List (String × String)
  aliases : List (String × String)
  scriptArgs : List String
  lastExitCode : Int
  pid : String
  now : Nat
  out : List (String × Bool)

/-- The `specialVars` record built in `expandString` (shell.ts:320-340). -/
def specialVarsOf (st : ShellSt) (name : String) : Option String :=
  if name = "0" then some (jsOrS (st.scriptArgs.getD 0 "") "sh")
  else if name = "1" then some (st.scriptArgs.getD 1 "")
  else if name = "2" then some (st.scriptArgs.getD 2 "")
  else if name = "3" then some (st.scriptArgs.getD 3 "")
  else if name = "4" then some (st.scriptArgs.getD 4 "")
  else if name = "5" then some (st.scriptArgs.getD 5 "")
  else if name = "6" then some (st.scriptArgs.getD 6 "")
  else if name = "7" then some (st.scriptArgs.getD 7 "")
  else if name = "8" then some (st.scriptArgs.getD 8 "")
  else if name = "9" then some (st.scriptArgs.getD 9 "")
  else if name = "@" then some (String.intercalate " " (st.scriptArgs.drop 1))
  else if name = "*" then some (String.intercalate " " (st.scriptArgs.drop 1))
  else if name = "#" then some (toString (st.scriptArgs.length - 1))
  else if name = "?" then some (toString st.lastExitCode)
  else if name = "$" then some st.pid
  else if name = "!" then some "0"
  else if name = "-" then some "himBH"
  else if name = "_" then some ""
  else none

/-- `new Map([...this.env, ...this.localVars])` (shell.ts:342 and 697): the
merged variable map, locals played after env. -/
def allVarsOf (st : ShellSt) : List (String × String) :=
  jsMapOfEntries (st.env ++ st.localVars)

/-- The keys of the `BUILTINS` table (builtins.ts:1483-1496). -/
def BUILTIN_NAMES : List String :=
  ["pwd", "cd", "ls", "touch", "cp", "mv", "rm", "mkdir", "rmdir", "cat",
   "head", "tail", "echo", "printf", "grep", "wc", "sort", "uniq", "cut",
   "tr", "stat", "file", "date", "sleep", "env", "printenv", "export",
   "unset", "true", "false", ":", "exit", "test", "[", "read", "tar",
   "clear", "history", "alias", "which", "type", "basename", "dirname",
   "seq", "tee", "xargs", "curl", "wget"]

/-- JS `String.prototype.replace` with a global literal pattern: replace
every (leftmost, non-overlapping) occurrence.  Budgeted; at least one
character is consumed per step. -/
def replAllF (pat rep : List Char) : Nat → List Char → List Char
  | 0, l => l
  | _ + 1, [] => []
  | f + 1, c :: rest =>
      if !pat.isEmpty && ((c :: rest).take pat.length == pat) then
        rep ++ replAllF pat rep f ((c :: rest).drop pat.length)
      else c :: replAllF pat rep f rest

def jsReplaceAll (pat rep l : List Char) : List Char :=
  replAllF pat rep l.length l

/-- The `-e` escape pass of `echo` (builtins.ts:419-425): sequential global
replaces of `\n`, `\t`, `\r`, `\\`. -/
def echoEscapes (s : String) : String :=
  String.mk (jsReplaceAll ['\\', '\\'] ['\\']
    (jsReplaceAll ['\\', 'r'] ['\r']
      (jsReplaceAll ['\\', 't'] ['\t']
        (jsReplaceAll ['\\', 'n'] ['\n'] s.toList))))

/-- `echo` (builtins.ts:402-433): `-n` and `-e` are recognized anywhere in
the argument list; the rest are joined with single spaces; `writeln` unless
`-n`. -/
def echoRun (args : List String) : Int × List (String × Bool) :=
  let noNewline := args.contains "-n"
  let enableEscapes := args.contains "-e"
  let output := String.intercalate " "
    (args.filter (fun a => !(a == "-n") && !(a == "-e")))
  let output := if enableEscapes then echoEscapes output else output
  (0, [(if noNewline then output else output ++ "\n", false)])

/-- Outcome of running a dispatched command: the writes it performed before
returning or throwing, the filesystem after, and the exit code or thrown
value. -/
structure DRes where
  writes : List (String × Bool)
  vf : VFS
  result : Except JsThrown Int

/-- The builtin table.  `echo`, `pwd`, `true`, `false`, `:` and `exit` are
modelled exactly (builtins.ts:402-433, 24-27, 985-993); every theorem's
scenario uses only those.  The remaining table entries get a neutral result
(no writes, exit 0) — none is exercised by any theorem. -/
def runBuiltin (name : String) (vfs : VFS) (env : List (String × String))
    (args : List String) (stdin : String) : DRes :=
  if name = "echo" then
    match echoRun args with
    | (code, ws) => ⟨ws, vfs, Except.ok code⟩
  else if name = "pwd" then ⟨[(vfs.cwd ++ "\n", false)], vfs, Except.ok 0⟩
  else if name = "true" then ⟨[], vfs, Except.ok 0⟩
  else if name = "false" then ⟨[], vfs, Except.ok 1⟩
  else if name = ":" then ⟨[], vfs, Except.ok 0⟩
  else if name = "exit" then
    ⟨[], vfs, Except.error (JsThrown.exitSig (jsParseInt10 (jsOrS (args.getD 0 "") "0")))⟩
  else ⟨[], vfs, Except.ok 0⟩

/-- `help history runtimes alias unalias source . sh bash zsh nano`: handled
by the `switch` in `dispatchCommand` before the builtin table
(shell.ts:493-505). -/
def SPECIAL_SHELL_CMDS : List String :=
  ["help", "history", "runtimes", "alias", "unalias", "source", ".", "sh",
   "bash", "zsh", "nano"]

/-- Package managers and git (shell.ts:513-520). -/
def PKG_CMDS : List String := ["npm", "pip", "pip3", "yarn", "pnpm", "git"]

/-- `isRuntime` (shell.ts:714-720). -/
def RUNTIME_CMDS : List String :=
  ["python", "python3", "node", "nodejs", "js", "gcc", "cc", "g++", "cpp",
   "java", "javac", "lua", "ruby", "go", "rust", "rustc"]

/-- `dispatchCommand` (shell.ts:482-538) with the `functions` map empty.
Special shell commands, package managers, runtimes and executable scripts
are recognized in the source's order but their bodies are not modelled
(neutral result; no theorem reaches them); builtins run `runBuiltin`; an
unrecognized name writes `command not found` and returns 127. -/
def dispatchCommand (vfs : VFS) (env : List (String × String)) (cmd : String)
    (args : List String) (stdin : String) : DRes :=
  if SPECIAL_SHELL_CMDS.contains cmd then ⟨[], vfs, Except.ok 0⟩
  else if BUILTIN_NAMES.contains cmd then runBuiltin cmd vfs env args stdin
  else if PKG_CMDS.contains cmd then ⟨[], vfs, Except.ok 0⟩
  else if RUNTIME_CMDS.contains cmd then ⟨[], vfs, Except.ok 0⟩
  else
    match getNode vfs cmd with
    | some (INode.file _ _ _) => ⟨[], vfs, Except.ok 0⟩
    | _ => ⟨[("shazi-shell: " ++ cmd ++ ": command not found\n", true)], vfs,
        Except.ok 127⟩

/-- The `try/catch` around the dispatch call in `executeSimpleCommand`
(shell.ts:451-458): an exit signal is re-thrown untouched; any other thrown
value becomes an error line and exit code 1. -/
def dispatchCaught (cmd : String) (d : DRes) : DRes :=
  match d.result with
  | Except.error (JsThrown.jsError m) =>
      ⟨d.writes ++ [("shazi-shell: " ++ cmd ++ ": " ++ jsOrS m "error" ++ "\n", true)],
        d.vf, Except.ok 1⟩
  | _ => d

/-! ## String expansion with command substitution (`Shell.expandString`,
shell.ts:310-344, and `Shell.captureOutput`, shell.ts:349-370) -/

/-- `captureOutput` (shell.ts:349-370): split by pipes; only a single
segment whose (expanded, tokenized) command is a builtin is executed, with
every `onOutput` call — both streams — appended to the captured string;
anything else (pipelines, non-builtins) captures nothing, and the bare
`catch {}` swallows every thrown value, exit signals included, keeping
whatever was written before the throw.  `expandS` is the recursive
`this.expandString`.  The modelled builtins do not mutate the filesystem,
so no state is returned. -/
def captureOutputCore (st : ShellSt) (expandS : List Char → List Char)
    (command : List Char) : List Char :=
  match splitByPipes command with
  | [p] =>
      let tc := tokenizeCommand (expandS p)
      if BUILTIN_NAMES.contains tc.cmd then
        ((runBuiltin tc.cmd st.vfs (allVarsOf st) tc.args "").writes.map
          (fun w => w.1.toList)).join
      else []
  | _ => []

/-- The three phases of `expandString`: the `/\$\(([^)]+)\)/g` pass, the
`` /`([^`]+)`/g `` pass, and the whole method. -/
inductive XMode where
  | dollar
  | backtick
  | top

/-- `expandString` (shell.ts:310-344) as one budgeted function.
`dollar`/`backtick` replay the global-regex scans: at `$(`/`` ` `` the body
is the run of characters up to the next closer, which must be non-empty and
closed for a match; the replacement is the captured output of the body with
whitespace trimmed from BOTH ends (`.trim()`), and scanning resumes after
the closer without rescanning the replacement; on a failed match the scan
advances one character.  `top` runs the dollar pass, then the backtick pass
on its output, then `expandVariables` with the merged variable map and the
special variables.  The budget shrinks only at nested substitution and per
scanned character; on exhaustion the remaining text is returned unexpanded
(every theorem instantiates inputs whose budget is checked by evaluation). -/
def expandSF (st : ShellSt) : Nat → XMode → List Char → List Char
  | 0, _, l => l
  | f + 1, XMode.top, input =>
      expandVariables
        (expandSF st f XMode.backtick (expandSF st f XMode.dollar input))
        (allVarsOf st) (specialVarsOf st)
  | _ + 1, XMode.dollar, [] => []
  | f + 1, XMode.dollar, '$' :: '(' :: rest =>
      let body := rest.takeWhile (fun c => !(c == ')'))
      if body.isEmpty || !((rest.drop body.length).head? == some ')') then
        '$' :: expandSF st f XMode.dollar ('(' :: rest)
      else
        jsTrim (captureOutputCore st (expandSF st f XMode.top) body) ++
          expandSF st f XMode.dollar (rest.drop (body.length + 1))
  | f + 1, XMode.dollar, c :: rest => c :: expandSF st f XMode.dollar rest
  | _ + 1, XMode.backtick, [] => []
  | f + 1, XMode.backtick, '`' :: rest =>
      let body := rest.takeWhile (fun c => !(c == '`'))
      if body.isEmpty || !((rest.drop body.length).head? == some '`') then
        '`' :: expandSF st f XMode.backtick rest
      else
        jsTrim (captureOutputCore st (expandSF st f XMode.top) body) ++
          expandSF st f XMode.backtick (rest.drop (body.length + 1))
  | f + 1, XMode.backtick, c :: rest => c :: expandSF st f XMode.backtick rest

/-- `this.expandString(input)` at a budget generous for every stated
scenario. -/
def expandString (st : ShellSt) (input : List Char) : List Char :=
  expandSF st ((input.length + 4) * (input.length + 4)) XMode.top input

/-! ## Simple commands, pipelines, the operator loop
(`Shell.executeSimpleCommand` shell.ts:417-477, `Shell.executePipeline`
shell.ts:375-412, `Shell.execute` shell.ts:236-292) -/

/-- The redirect-setup loop (shell.ts:425-446): `>`/`>>` select the target
file (the last one wins) and capture stdout; `<` replaces stdin with the
file's contents (`TextDecoder` modelled as one character per byte) or
aborts with the target name; other redirect types are parsed but ignored
by this loop. -/
def applyRedirsGo (vfs : VFS) :
    List Redirect → String → Option (String × Bool) →
      Except String (String × Option (String × Bool))
  | [], stdin, rf => Except.ok (stdin, rf)
  | r :: rest, stdin, rf =>
      if r.type = ">" || r.type = ">>" then
        applyRedirsGo vfs rest stdin (some (r.target, r.type = ">>"))
      else if r.type = "<" then
        match readFile vfs r.target with
        | Except.ok content =>
            applyRedirsGo vfs rest (String.mk (content.map Char.ofNat)) rf
        | Except.error _ => Except.error r.target
      else applyRedirsGo vfs rest stdin rf

/-- The redirect write (shell.ts:461-477): in append mode with an existing
target, concatenate onto the old contents; `TextEncoder` modelled as one
byte per character. -/
def redirWrite (vfs : VFS) (now : Nat) (file : String) (append : Bool)
    (data : String) : Except String VFS :=
  if append && (getNode vfs file).isSome then
    match readFile vfs file with
    | Except.error m => Except.error m
    | Except.ok existing =>
        writeFile vfs file (existing ++ data.toList.map Char.toNat) now
  else writeFile vfs file (data.toList.map Char.toNat) now

/-- `executeSimpleCommand` (shell.ts:417-477): tokenize, expand globs,
set up redirects, dispatch under the catch that re-throws exit signals,
then flush captured stdout to the redirect target.  `writes` carries what
reached the session's `onOutput` (with a `>`/`>>` redirect in place stdout
goes to the buffer and only stderr passes; an exit signal thrown by the
command skips the redirect write). -/
def executeSimpleCommandM (st : ShellSt) (input : List Char) (stdin : String) :
    DRes :=
  let tc := tokenizeCommand input
  if tc.cmd = "" then ⟨[], st.vfs, Except.ok 0⟩
  else
    let eArgs := expandGlobs tc.args (fun p => (readdir st.vfs p).toOption)
    match applyRedirsGo st.vfs tc.redirects stdin none with
    | Except.error tgt =>
        ⟨[("shazi-shell: " ++ tgt ++ ": No such file\n", true)], st.vfs,
          Except.ok 1⟩
    | Except.ok (stdin2, none) =>
        dispatchCaught tc.cmd
          (dispatchCommand st.vfs (allVarsOf st) tc.cmd eArgs stdin2)
    | Except.ok (stdin2, some (file, append)) =>
        let d := dispatchCommand st.vfs (allVarsOf st) tc.cmd eArgs stdin2
        match d.result with
        | Except.error (JsThrown.exitSig c) =>
            ⟨d.writes.filter (fun w => w.2), d.vf,
              Except.error (JsThrown.exitSig c)⟩
        | _ =>
            let dc := dispatchCaught tc.cmd d
            let buffer := String.join
              ((dc.writes.filter (fun w => !w.2)).map (fun w => w.1))
            let passed := dc.writes.filter (fun w => w.2)
            match redirWrite dc.vf st.now file append buffer with
            | Except.ok v2 => ⟨passed, v2, dc.result⟩
            | Except.error m =>
                ⟨passed ++ [("shazi-shell: " ++ file ++ ": " ++
                    jsOrS m "write failed" ++ "\n", true)], dc.vf, Except.ok 1⟩

/-- The multi-segment loop of `executePipeline` (shell.ts:395-409): a
non-final segment runs with its stdout captured as the next segment's stdin
(stderr passes through); the final segment's code is the pipeline's.  A
thrown value propagates (in the source this also leaks the capture callback;
the session is over for the only modelled throw, `exit`). -/
def pipelineGo (st : ShellSt) (pipeInput : String) (acc : List (String × Bool)) :
    List (List Char) → DRes
  | [] => ⟨acc, st.vfs, Except.ok 0⟩
  | [c] =>
      let d := executeSimpleCommandM st c pipeInput
      ⟨acc ++ d.writes, d.vf, d.result⟩
  | c :: c2 :: rest =>
      let d := executeSimpleCommandM st c pipeInput
      match d.result with
      | Except.error e =>
          ⟨acc ++ d.writes.filter (fun w => w.2), d.vf, Except.error e⟩
      | Except.ok _ =>
          pipelineGo {st with vfs := d.vf}
            (String.join ((d.writes.filter (fun w => !w.2)).map (fun w => w.1)))
            (acc ++ d.writes.filter (fun w => w.2)) (c2 :: rest)

/-- `executePipeline` (shell.ts:375-412): expand the string, split by
pipes, run the single segment with empty stdin or fold the chain. -/
def executePipelineM (st : ShellSt) (input : List Char) : DRes :=
  match splitByPipes (expandString st input) with
  | [] => ⟨[], st.vfs, Except.ok 0⟩
  | [c] => executeSimpleCommandM st c ""
  | cs => pipelineGo st "" [] cs

/-- The operator loop of `execute` (shell.ts:263-285), parameterized by the
control-structure executor (`executeControlStructure`, whose bodies recurse
into `execute` and are exercised separately): a segment after `&&` is
skipped when the current code is non-zero, after `||` when it is zero (the
skip also leaves `lastExitCode` untouched); otherwise the segment runs as a
control structure or a pipeline, and `lastExitCode` is updated. -/
def execOpsGo
    (ctrlExec : String → List Char → ShellSt → Except (JsThrown × ShellSt) (Int × ShellSt)) :
    List OpSeg → Option Oper → Int → ShellSt →
      Except (JsThrown × ShellSt) (Int × ShellSt)
  | [], _, code, st => Except.ok (code, st)
  | op :: rest, prev, code, st =>
      if (prev == some Oper.andOp && !(code == 0)) ||
          (prev == some Oper.orOp && code == 0) then
        execOpsGo ctrlExec rest op.operator code st
      else
        match
          (match extractControlStructure op.command with
           | some ctrl => ctrlExec ctrl.type ctrl.content st
           | none =>
               let d := executePipelineM st op.command
               match d.result with
               | Except.ok c =>
                   Except.ok (c, {st with vfs := d.vf, out := st.out ++ d.writes})
               | Except.error e =>
                   Except.error (e, {st with vfs := d.vf, out := st.out ++ d.writes})) with
        | Except.error es => Except.error es
        | Except.ok (c, st1) =>
            execOpsGo ctrlExec rest op.operator c {st1 with lastExitCode := c}

/-- The phase of `execute` from the operator split on (shell.ts:255-285);
a function definition only updates the (unmodelled) `functions` map and
returns 0. -/
def executeOpsPhase
    (ctrlExec : String → List Char → ShellSt → Except (JsThrown × ShellSt) (Int × ShellSt))
    (st : ShellSt) (i1 : List Char) :
    Except (JsThrown × ShellSt) (Int × ShellSt) :=
  match funcDefMatch i1 with
  | some _ => Except.ok (0, st)
  | none => execOpsGo ctrlExec (splitByOperators i1) none 0 st

/-- The `try` body of `execute` (shell.ts:240-286): brace expansion, alias
expansion, the simple-assignment shortcut, the function-definition
shortcut, then the operator loop. -/
def executeBody
    (ctrlExec : String → List Char → ShellSt → Except (JsThrown × ShellSt) (Int × ShellSt))
    (st : ShellSt) (input : List Char) :
    Except (JsThrown × ShellSt) (Int × ShellSt) :=
  let i1 := expandAliases st.aliases (expandBraces input)
  match simpleAssignMatch i1 with
  | some (name, value) =>
      if !(i1.contains ' ') then
        Except.ok (0, {st with
          localVars := jsMapSet st.localVars name (String.mk (expandString st value))})
      else executeOpsPhase ctrlExec st i1
  | none => executeOpsPhase ctrlExec st i1

/-- The `catch` of `execute` (shell.ts:287-292): `error?.type === 'exit'`
is re-thrown; everything else becomes an error line and exit code 1. -/
def execCatch (r : Except (JsThrown × ShellSt) (Int × ShellSt)) :
    Except (JsThrown × ShellSt) (Int × ShellSt) :=
  match r with
  | Except.error (JsThrown.jsError m, st1) =>
      Except.ok (1, {st1 with
        out := st1.out ++ [("shazi-shell: " ++ jsOrS m "error" ++ "\n", true)]})
  | r => r

/-- `Shell.execute` (shell.ts:236-292). -/
def executeM
    (ctrlExec : String → List Char → ShellSt → Except (JsThrown × ShellSt) (Int × ShellSt))
    (st : ShellSt) (input : List Char) :
    Except (JsThrown × ShellSt) (Int × ShellSt) :=
  execCatch (executeBody ctrlExec st input)

/-! ## While/until loops (`Shell.executeWhile` shell.ts:583-604,
`Shell.executeUntil` shell.ts:609-630) -/

/-- The iteration loop of `executeWhile`, over an abstract non-throwing
evaluator `exec` standing for `this.execute` (the `while COND; do BODY;
done` regex parse at shell.ts:585 supplies `cond` and `body` and is not
modelled).  The first argument is the remaining iteration budget
(`maxIterations - iterations`, starting at 10000); each round re-executes
the condition as a full command, breaks when it exits non-zero, otherwise
runs the body and keeps its code; an exhausted budget stops silently with
the code accumulated so far. -/
def whileGo {σ : Type} (exec : List Char → σ → Int × σ) (cond body : List Char) :
    Nat → Int → σ → Int × σ
  | 0, code, s => (code, s)
  | n + 1, code, s =>
      match exec cond s with
      | (c, s1) =>
          if !(c == 0) then (code, s1)
          else
            match exec body s1 with
            | (b, s2) => whileGo exec cond body n b s2

/-- `executeWhile` after the regex parse: 10000-round budget, initial code 0. -/
def executeWhileM {σ : Type} (exec : List Char → σ → Int × σ)
    (cond body : List Char) (s : σ) : Int × σ :=
  whileGo exec cond body 10000 0 s

/-- The dual loop of `executeUntil`: break when the condition exits 0. -/
def untilGo {σ : Type} (exec : List Char → σ → Int × σ) (cond body : List Char) :
    Nat → Int → σ → Int × σ
  | 0, code, s => (code, s)
  | n + 1, code, s =>
      match exec cond s with
      | (c, s1) =>
          if c == 0 then (code, s1)
          else
            match exec body s1 with
            | (b, s2) => untilGo exec cond body n b s2

/-- `executeUntil` after the regex parse. -/
def executeUntilM {σ : Type} (exec : List Char → σ → Int × σ)
    (cond body : List Char) (s : σ) : Int × σ :=
  untilGo exec cond body 10000 0 s

/-! ## A concrete shell state for the scenario theorems -/

/-- A session over `demoVFS` with `X` exported as `"e"`, `HOME` exported,
and a local variable `X = "l"` shadowing the export. -/
def demoSh : ShellSt :=
  { vfs := demoVFS, env := [("X", "e"), ("HOME", "/home")],
    localVars := [("X", "l")], aliases := [], scriptArgs := [],
    lastExitCode := 0, pid := "123", now := 77, out := [] }

/-! ## Map-merge lemmas (for the `new Map([...env, ...locals])` claims) -/

lemma jsMapGet_jsMapSet {α : Type} (m : List (String × α)) (k : String) (v : α)
    (k' : String) :
    jsMapGet (jsMapSet m k v) k' = if k = k' then some v else jsMapGet m k' := by
  induction m with
  | nil =>
      simp only [jsMapSet, jsMapGet]
  | cons a t ih =>
      obtain ⟨ka, va⟩ := a
      by_cases h : ka = k
      · subst h
        simp only [jsMapSet, if_pos rfl, jsMapGet]
        by_cases h2 : ka = k'
        · simp [h2]
        · simp [h2]
      · simp only [jsMapSet, if_neg h, jsMapGet, ih]
        by_cases h2 : ka = k'
        · subst h2
          rw [if_pos rfl, if_neg (fun hc => h hc.symm), if_pos rfl]
        · rw [if_neg h2, if_neg h2]

lemma jsMapGet_append {α : Type} (x y : List (String × α)) (k : String) :
    jsMapGet (x ++ y) k =
      match jsMapGet x k with
      | some v => some v
      | none => jsMapGet y k := by
  induction x with
  | nil => simp [jsMapGet]
  | cons a t ih =>
      obtain ⟨ka, va⟩ := a
      by_cases h : ka = k
      · simp [jsMapGet, h]
      · simp [jsMapGet, h, ih]

/-- Looking a key up in `new Map(entries)` finds the LAST entry with that
key — that is, the first hit in the reversed entry list. -/
lemma jsMapGet_foldl_set {α : Type} (l : List (String × α)) :
    ∀ (m : List (String × α)) (k : String),
      jsMapGet (l.foldl (fun m kv => jsMapSet m kv.1 kv.2) m) k =
        match jsMapGet l.reverse k with
        | some v => some v
        | none => jsMapGet m k := by
  induction l with
  | nil => intro m k; simp [jsMapGet]
  | cons a t ih =>
      intro m k
      simp only [List.foldl_cons, List.reverse_cons]
      rw [ih, jsMapGet_append]
      cases h : jsMapGet t.reverse k with
      | some v => rfl
      | none =>
          simp only [jsMapGet_jsMapSet, jsMapGet]
          by_cases h2 : a.1 = k
          · rw [if_pos h2, if_pos h2]
          · rw [if_neg h2, if_neg h2]

lemma jsMapGet_ofEntries {α : Type} (l : List (String × α)) (k : String) :
    jsMapGet (jsMapOfEntries l) k =
      match jsMapGet l.reverse k with
      | some v => some v
      | none => none := by
  rw [jsMapOfEntries, jsMapGet_foldl_set]
  cases jsMapGet l.reverse k <;> rfl

lemma jsMapGet_eq_none_of_not_mem {α : Type} (l : List (String × α)) (k : String)
    (h : k ∉ l.map Prod.fst) : jsMapGet l k = none := by
  induction l with
  | nil => rfl
  | cons a t ih =>
      obtain ⟨ka, va⟩ := a
      simp only [List.map_cons, List.mem_cons] at h
      push_neg at h
      simp only [jsMapGet]
      rw [if_neg (fun hc => h.1 hc.symm), ih h.2]

/-- With no duplicate keys, lookup order does not matter. -/
lemma jsMapGet_reverse_nodup {α : Type} (l : List (String × α))
    (hnd : (l.map Prod.fst).Nodup) (k : String) :
    jsMapGet l.reverse k = jsMapGet l k := by
  induction l with
  | nil => rfl
  | cons a t ih =>
      obtain ⟨ka, va⟩ := a
      simp only [List.map_cons, List.nodup_cons] at hnd
      simp only [List.reverse_cons]
      rw [jsMapGet_append, ih hnd.2]
      by_cases h : ka = k
      · subst h
        rw [jsMapGet_eq_none_of_not_mem t ka hnd.1]
        simp [jsMapGet]
      · cases hg : jsMapGet t k with
        | some v => simp [jsMapGet, h, hg]
        | none => simp [jsMapGet, h, hg]

lemma not_mem_of_jsMapGet_eq_none {α : Type} (l : List (String × α)) (k : String)
    (h : jsMapGet l k = none) : k ∉ l.map Prod.fst := by
  induction l with
  | nil => simp
  | cons a t ih =>
      obtain ⟨ka, va⟩ := a
      simp only [jsMapGet] at h
      by_cases hk : ka = k
      · rw [if_pos hk] at h; exact absurd h (by simp)
      · rw [if_neg hk] at h
        simp only [List.map_cons, List.mem_cons]
        push_neg
        exact ⟨fun hc => hk hc.symm, ih h⟩

/-! ### C9: env/locals merge -/

/-- C9: both `expandString` (shell.ts:342) and `createContext` (shell.ts:697)
build `new Map([...this.env, ...this.localVars])`; for a name present in
both maps (each map having unique keys, as JS `Map`s do) the local value
wins regardless of the env value, and a name absent from the locals falls
back to the env value; concretely, `demoSh`'s merged map carries the local
`X = "l"` over the exported `X = "e"`, and `$X` expands to `l`. -/
theorem env_locals_merge_locals_precedence :
    (∀ (env locals : List (String × String)) (name v : String),
        (locals.map Prod.fst).Nodup →
        jsMapGet locals name = some v →
        jsMapGet (jsMapOfEntries (env ++ locals)) name = some v)
  ∧ (∀ (env locals : List (String × String)) (name : String),
        (env.map Prod.fst).Nodup →
        jsMapGet locals name = none →
        jsMapGet (jsMapOfEntries (env ++ locals)) name = jsMapGet env name)
  ∧ allVarsOf demoSh = [("X", "l"), ("HOME", "/home")]
  ∧ jsMapGet (allVarsOf demoSh) "X" = some "l"
  ∧ expandString demoSh ("$X".toList) = "l".toList := by
  refine ⟨?_, ?_, rfl, rfl, rfl⟩
  · intro env locals name v hnd hl
    rw [jsMapGet_ofEntries, List.reverse_append, jsMapGet_append,
      jsMapGet_reverse_nodup locals hnd name, hl]
  · intro env locals name hnd hl
    have h2 : jsMapGet locals.reverse name = none := by
      apply jsMapGet_eq_none_of_not_mem
      rw [List.map_reverse, List.mem_reverse]
      exact not_mem_of_jsMapGet_eq_none locals name hl
    rw [jsMapGet_ofEntries, List.reverse_append, jsMapGet_append, h2,
      jsMapGet_reverse_nodup env hnd name]
    cases jsMapGet env name <;> rfl

/-- Witness for C9: a duplicated name resolves to the local value, and a
name only in env falls back to it. -/
theorem env_locals_merge_locals_precedence_witness :
    jsMapGet (jsMapOfEntries ([("A", "x")] ++ [("A", "y")])) "A" = some "y" ∧
    jsMapGet (jsMapOfEntries ([("B", "z")] ++ [("A", "y")])) "B" =
      jsMapGet [("B", "z")] "B" :=
  ⟨env_locals_merge_locals_precedence.1 [("A", "x")] [("A", "y")] "A" "y"
      (by simp) rfl,
    env_locals_merge_locals_precedence.2.1 [("B", "z")] [("A", "y")] "B"
      (by simp) rfl⟩

/-! ### C2: the exit signal -/

/-- C2: the exit signal propagates intact through every evaluation frame.
`exit` throws `{type: 'exit', code: parseInt(args[0] || '0', 10)}`;
`dispatchCommand` passes it through; the catch in `executeSimpleCommand`
re-throws it while converting every other thrown value to exit code 1; the
catch in `execute` does the same; and a full `execute` of `exit 5` reaches
the caller as the exit signal with code 5 (not as an error code 1). -/
theorem exit_signal_propagates :
    (∀ (vfs : VFS) (env : List (String × String)) (args : List String)
        (stdin : String),
        runBuiltin "exit" vfs env args stdin =
          ⟨[], vfs, Except.error (JsThrown.exitSig
            (jsParseInt10 (jsOrS (args.getD 0 "") "0")))⟩ ∧
        (dispatchCommand vfs env "exit" args stdin).result =
          Except.error (JsThrown.exitSig
            (jsParseInt10 (jsOrS (args.getD 0 "") "0"))))
  ∧ (∀ (cmd : String) (d : DRes) (c : Option Int),
        d.result = Except.error (JsThrown.exitSig c) → dispatchCaught cmd d = d)
  ∧ (∀ (cmd : String) (d : DRes) (m : String),
        d.result = Except.error (JsThrown.jsError m) →
          (dispatchCaught cmd d).result = Except.ok 1)
  ∧ (∀ (c : Option Int) (st1 : ShellSt),
        execCatch (Except.error (JsThrown.exitSig c, st1)) =
          Except.error (JsThrown.exitSig c, st1))
  ∧ (∀ (m : String) (st1 : ShellSt),
        (execCatch (Except.error (JsThrown.jsError m, st1))).isOk = true)
  ∧ (∀ ctrlExec, executeM ctrlExec demoSh ("exit 5".toList) =
        Except.error (JsThrown.exitSig (some 5), demoSh)) := by
  refine ⟨fun vfs env args stdin => ⟨rfl, rfl⟩, ?_, ?_, fun c st1 => rfl,
    fun m st1 => rfl, fun ctrlExec => rfl⟩
  · intro cmd d c h
    simp only [dispatchCaught]
    rw [h]
  · intro cmd d m h
    simp only [dispatchCaught]
    rw [h]

/-- Witness for C2: the simple-command catch at a concrete exit signal and
a concrete ordinary error. -/
theorem exit_signal_propagates_witness :
    dispatchCaught "exit" ⟨[], demoVFS, Except.error (JsThrown.exitSig (some 5))⟩ =
      ⟨[], demoVFS, Except.error (JsThrown.exitSig (some 5))⟩ ∧
    (dispatchCaught "boom" ⟨[], demoVFS,
        Except.error (JsThrown.jsError "kaput")⟩).result = Except.ok 1 :=
  ⟨exit_signal_propagates.2.1 "exit" _ (some 5) rfl,
    exit_signal_propagates.2.2.1 "boom" _ "kaput" rfl⟩

/-! ### C6: operator short-circuiting -/

/-- C6: in the operator loop of `execute`, a segment after `&&` is skipped
exactly when the previous exit code is non-zero and one after `||` exactly
when it is zero, while a segment after `;` runs unconditionally (the loop
treats it exactly like a first segment); end to end, `false && echo A`
produces no output and exits 1, `false || echo B` outputs `B`,
`false ; echo C` still runs the second segment, and `true && echo A`
runs it. -/
theorem operator_short_circuit :
    (∀ (ctrlExec : String → List Char → ShellSt →
          Except (JsThrown × ShellSt) (Int × ShellSt))
        (op : OpSeg) (rest : List OpSeg) (code : Int) (st : ShellSt),
        code ≠ 0 →
        execOpsGo ctrlExec (op :: rest) (some Oper.andOp) code st =
          execOpsGo ctrlExec rest op.operator code st)
  ∧ (∀ (ctrlExec : String → List Char → ShellSt →
          Except (JsThrown × ShellSt) (Int × ShellSt))
        (op : OpSeg) (rest : List OpSeg) (st : ShellSt),
        execOpsGo ctrlExec (op :: rest) (some Oper.orOp) 0 st =
          execOpsGo ctrlExec rest op.operator 0 st)
  ∧ (∀ (ctrlExec : String → List Char → ShellSt →
          Except (JsThrown × ShellSt) (Int × ShellSt))
        (op : OpSeg) (rest : List OpSeg) (code : Int) (st : ShellSt),
        execOpsGo ctrlExec (op :: rest) (some Oper.semi) code st =
          execOpsGo ctrlExec (op :: rest) none code st)
  ∧ (∀ ctrlExec, executeM ctrlExec demoSh ("false && echo A".toList) =
        Except.ok (1, {demoSh with lastExitCode := 1}))
  ∧ (∀ ctrlExec, executeM ctrlExec demoSh ("false || echo B".toList) =
        Except.ok (0, {demoSh with lastExitCode := 0, out := [("B\n", false)]}))
  ∧ (∀ ctrlExec, executeM ctrlExec demoSh ("false ; echo C".toList) =
        Except.ok (0, {demoSh with lastExitCode := 0, out := [("C\n", false)]}))
  ∧ (∀ ctrlExec, executeM ctrlExec demoSh ("true && echo A".toList) =
        Except.ok (0, {demoSh with lastExitCode := 0, out := [("A\n", false)]})) := by
  refine ⟨?_, fun ctrlExec op rest st => rfl, fun ctrlExec op rest code st => rfl,
    fun ctrlExec => rfl, fun ctrlExec => rfl, fun ctrlExec => rfl,
    fun ctrlExec => rfl⟩
  intro ctrlExec op rest code st h
  simp only [execOpsGo]
  rw [if_pos]
  simp [beq_eq_false_iff_ne.mpr h]

/-- Witness for C6: the `&&` skip equation at exit code 1 with a concrete
segment list. -/
theorem operator_short_circuit_witness :
    execOpsGo (fun _ _ st => Except.ok (0, st))
        [⟨"echo Z".toList, none⟩] (some Oper.andOp) 1 demoSh =
      execOpsGo (fun _ _ st => Except.ok (0, st)) [] none 1 demoSh :=
  operator_short_circuit.1 (fun _ _ st => Except.ok (0, st))
    ⟨"echo Z".toList, none⟩ [] 1 demoSh (by decide)

/-! ### C7: while/until semantics and the 10000-iteration cap -/

/-- An always-true condition with a body-counting state: the condition
command exits 0 without touching the counter; any other command (the body)
increments it and exits 7. -/
def whileCapExec : List Char → Nat → Int × Nat :=
  fun cmd j => if cmd = "true".toList then (0, j) else (7, j + 1)

/-- The `until` dual: the condition always exits 1 (so the loop continues);
the body increments the counter and exits 9. -/
def untilCapExec : List Char → Nat → Int × Nat :=
  fun cmd j => if cmd = "c".toList then (1, j) else (9, j + 1)

/-- A condition that succeeds three times then fails, counting in the first
component how often it is executed; the body counts in the second and exits
`100 + count`. -/
def whileCountExec : List Char → Nat × Nat → Int × (Nat × Nat) :=
  fun cmd s =>
    if cmd = "c".toList then (if s.1 < 3 then 0 else 1, (s.1 + 1, s.2))
    else (100 + (s.2 : Int), (s.1, s.2 + 1))

/-- The `until` dual: the condition exits non-zero three times then 0. -/
def untilCountExec : List Char → Nat × Nat → Int × (Nat × Nat) :=
  fun cmd s =>
    if cmd = "c".toList then (if s.1 < 3 then 1 else 0, (s.1 + 1, s.2))
    else (50 + (s.2 : Int), (s.1, s.2 + 1))

/-- Under the always-true condition the while loop runs the body once per
budgeted round: `n` rounds add `n` to the counter and leave the last body
code (7) unless no round ran. -/
lemma whileGo_whileCapExec (n : Nat) : ∀ (code : Int) (j : Nat),
    whileGo whileCapExec ("true".toList) ("b".toList) n code j =
      (if n = 0 then code else 7, j + n) := by
  induction n with
  | zero => intro code j; simp [whileGo]
  | succ n ih =>
      intro code j
      show whileGo whileCapExec ("true".toList) ("b".toList) (n + 1) code j = _
      rw [whileGo]
      show whileGo whileCapExec ("true".toList) ("b".toList) n 7 (j + 1) = _
      rw [ih 7 (j + 1)]
      simp [Nat.add_assoc, Nat.add_comm 1 n]

/-- The `until` analogue with the never-zero condition. -/
lemma untilGo_untilCapExec (n : Nat) : ∀ (code : Int) (j : Nat),
    untilGo untilCapExec ("c".toList) ("b".toList) n code j =
      (if n = 0 then code else 9, j + n) := by
  induction n with
  | zero => intro code j; simp [untilGo]
  | succ n ih =>
      intro code j
      show untilGo untilCapExec ("c".toList) ("b".toList) (n + 1) code j = _
      rw [untilGo]
      show untilGo untilCapExec ("c".toList) ("b".toList) n 9 (j + 1) = _
      rw [ih 9 (j + 1)]
      simp [Nat.add_assoc, Nat.add_comm 1 n]

/-- C7: the while loop re-executes its condition as a command each round
(observable in the condition counter reaching 4 for 3 body runs) and loops
while it exits 0 — `until` while it exits non-zero; a condition that fails
at once ends the loop with code 0 after mutating only through that one
condition run; and under a never-ending condition both loops stop silently
after exactly 10000 body iterations, returning the last body's exit code. -/
theorem while_until_loop_cap :
    (∀ (σ : Type) (exec : List Char → σ → Int × σ) (cond body : List Char)
        (s s1 : σ) (c : Int),
        exec cond s = (c, s1) → c ≠ 0 →
        executeWhileM exec cond body s = (0, s1))
  ∧ (∀ (σ : Type) (exec : List Char → σ → Int × σ) (cond body : List Char)
        (s s1 : σ),
        exec cond s = (0, s1) →
        executeUntilM exec cond body s = (0, s1))
  ∧ (∀ j : Nat, executeWhileM whileCapExec ("true".toList) ("b".toList) j =
        (7, j + 10000))
  ∧ (∀ j : Nat, executeUntilM untilCapExec ("c".toList) ("b".toList) j =
        (9, j + 10000))
  ∧ executeWhileM whileCountExec ("c".toList) ("b".toList) ((0, 0) : Nat × Nat) =
      (102, (4, 3))
  ∧ executeUntilM untilCountExec ("c".toList) ("b".toList) ((0, 0) : Nat × Nat) =
      (52, (4, 3)) := by
  refine ⟨?_, ?_, ?_, ?_, rfl, rfl⟩
  · intro σ exec cond body s s1 c h hc
    show whileGo exec cond body (9999 + 1) 0 s = (0, s1)
    rw [whileGo, h]
    simp [beq_eq_false_iff_ne.mpr hc]
  · intro σ exec cond body s s1 h
    show untilGo exec cond body (9999 + 1) 0 s = (0, s1)
    rw [untilGo, h]
    simp
  · intro j
    show whileGo whileCapExec ("true".toList) ("b".toList) 10000 0 j = _
    rw [whileGo_whileCapExec 10000 0 j]
    simp
  · intro j
    show untilGo untilCapExec ("c".toList) ("b".toList) 10000 0 j = _
    rw [untilGo_untilCapExec 10000 0 j]
    simp

/-- Witness for C7: a once-failing while condition and a once-succeeding
until condition at a concrete counting state. -/
theorem while_until_loop_cap_witness :
    executeWhileM (fun _ (s : Nat) => (5, s + 1)) ("x".toList) ("y".toList) 0 = (0, 1) ∧
    executeUntilM (fun _ (s : Nat) => (0, s + 1)) ("x".toList) ("y".toList) 0 = (0, 1) :=
  ⟨while_until_loop_cap.1 Nat (fun _ s => (5, s + 1)) ("x".toList) ("y".toList)
      0 1 5 rfl (by decide),
    while_until_loop_cap.2.1 Nat (fun _ s => (0, s + 1)) ("x".toList) ("y".toList)
      0 1 rfl⟩

/-! ### C4: command substitution -/

lemma takeWhile_all_append {p : Char → Bool} (l : List Char) :
    ∀ (r : List Char), l.all p = true →
      (l ++ r).takeWhile p = l ++ r.takeWhile p := by
  induction l with
  | nil => intro r _; rfl
  | cons a t ih =>
      intro r h
      rw [List.all_cons, Bool.and_eq_true] at h
      rw [List.cons_append, List.takeWhile_cons, if_pos h.1, ih r h.2]
      rfl

lemma drop_succ_append (l r : List Char) (c : Char) :
    (l ++ c :: r).drop (l.length + 1) = r := by
  rw [show l ++ c :: r = (l ++ [c]) ++ r by simp,
    show l.length + 1 = (l ++ [c]).length by simp, List.drop_left]

/-- C4 counterexample to the spec sentence: `$(echo " A")` expands to `A` —
the capture is trimmed of LEADING whitespace as well, not only trailing —
and a substitution whose command is a pipeline (`$(echo hi | cat)`) or a
non-builtin (`$(git status)`) expands to the empty string instead of being
run through the full evaluator. -/
theorem cmd_subst_spec_counterexample :
    expandString demoSh ("$(echo \" A\")".toList) = "A".toList
  ∧ "A".toList ≠ " A".toList
  ∧ expandString demoSh ("$(echo hi | cat)".toList) = []
  ∧ expandString demoSh ("$(git status)q".toList) = "q".toList := by
  exact ⟨rfl, by decide, rfl, rfl⟩

/-- C4 (amended): every `$(body)` / `` `body` `` occurrence (non-empty body
up to the first closer) is replaced by the captured output of the body with
whitespace trimmed from BOTH ends, where the capture executes only a
single-segment builtin command (pipelines and non-builtin commands capture
nothing, and a thrown exit signal is swallowed, keeping the output written
before it); concretely `$(echo " A")x` gives `Ax`, `` `echo B` `` gives
`B`, and `$(exit 7)x` gives `x`. -/
theorem cmd_subst_builtin_capture :
    (∀ (st : ShellSt) (f : Nat) (body rest : List Char),
        body ≠ [] → body.all (fun c => !(c == ')')) = true →
        expandSF st (f + 1) XMode.dollar ('$' :: '(' :: (body ++ ')' :: rest)) =
          jsTrim (captureOutputCore st (expandSF st f XMode.top) body) ++
            expandSF st f XMode.dollar rest)
  ∧ (∀ (st : ShellSt) (f : Nat) (body rest : List Char),
        body ≠ [] → body.all (fun c => !(c == '`')) = true →
        expandSF st (f + 1) XMode.backtick ('`' :: (body ++ '`' :: rest)) =
          jsTrim (captureOutputCore st (expandSF st f XMode.top) body) ++
            expandSF st f XMode.backtick rest)
  ∧ (∀ (st : ShellSt) (ex : List Char → List Char) (command : List Char)
        (c1 c2 : List Char) (cs : List (List Char)),
        splitByPipes command = c1 :: c2 :: cs →
        captureOutputCore st ex command = [])
  ∧ (∀ (st : ShellSt) (ex : List Char → List Char) (command p : List Char),
        splitByPipes command = [p] →
        BUILTIN_NAMES.contains (tokenizeCommand (ex p)).cmd = false →
        captureOutputCore st ex command = [])
  ∧ expandString demoSh ("$(echo \" A\")x".toList) = "Ax".toList
  ∧ expandString demoSh ("`echo B`".toList) = "B".toList
  ∧ expandString demoSh ("$(exit 7)x".toList) = "x".toList := by
  refine ⟨?_, ?_, ?_, ?_, rfl, rfl, rfl⟩
  · intro st f body rest hne hall
    have hie : body.isEmpty = false := by
      cases body with
      | nil => exact absurd rfl hne
      | cons a t => rfl
    have ht : (body ++ ')' :: rest).takeWhile (fun c => !(c == ')')) = body := by
      rw [takeWhile_all_append body _ hall, List.takeWhile_cons]
      simp
    simp only [expandSF, ht, hie, List.drop_left, drop_succ_append]
    simp
  · intro st f body rest hne hall
    have hie : body.isEmpty = false := by
      cases body with
      | nil => exact absurd rfl hne
      | cons a t => rfl
    have ht : (body ++ '`' :: rest).takeWhile (fun c => !(c == '`')) = body := by
      rw [takeWhile_all_append body _ hall, List.takeWhile_cons]
      simp
    simp only [expandSF, ht, hie, List.drop_left, drop_succ_append]
    simp
  · intro st ex command c1 c2 cs h
    simp only [captureOutputCore]
    rw [h]
  · intro st ex command p h hb
    simp only [captureOutputCore]
    rw [h]
    split
    · rename_i p2 heq
      injection heq with h1 h2
      subst h1
      rw [hb]
      rfl
    · rename_i xs hx
      exact absurd rfl (hx p)

/-- Witness for C4: the dollar substitution equation at a concrete body,
a concrete pipeline capture when the split has two segments, and a concrete
non-builtin capture. -/
theorem cmd_subst_builtin_capture_witness :
    expandSF demoSh (120 + 1) XMode.dollar
        ('$' :: '(' :: ("pwd".toList ++ ')' :: "z".toList)) =
      jsTrim (captureOutputCore demoSh (expandSF demoSh 120 XMode.top)
          ("pwd".toList)) ++ expandSF demoSh 120 XMode.dollar ("z".toList) ∧
    captureOutputCore demoSh id ("echo hi | cat".toList) = [] ∧
    captureOutputCore demoSh id ("git status".toList) = [] :=
  ⟨cmd_subst_builtin_capture.1 demoSh 120 ("pwd".toList) ("z".toList)
      (by decide) (by decide),
    cmd_subst_builtin_capture.2.2.1 demoSh id ("echo hi | cat".toList)
      ("echo hi".toList) ("cat".toList) [] rfl,
    cmd_subst_builtin_capture.2.2.2.1 demoSh id ("git status".toList)
      ("git status".toList) rfl rfl⟩

end ShaziShell
